import Mathlib

/-!
Verification development for the pyFLUKAgeo combinatorial-geometry library
(src/geometry.py, src/region.py, src/scorings.py).

Python strings are embedded as `List Char`; numeric payloads (coordinates,
angles, neighbour counts) as exact rationals `ℚ`.  Fallible code paths
(`exit(1)`, uncaught `IndexError` / `AttributeError` / `TypeError`) are
embedded as `Except String`.  Collaborator classes of the repository that are
not under src/ (FLUKA.GeoObject, Body, Transformation/RotDefi, the grid
module, myMath.RotMat) are modelled from the spec where needed; each such
definition carries a doc comment starting with `Modelled from the spec:`.
-/

namespace PyFluka

/-! ### Character-list utilities (Python `str` operations) -/

/-- Python whitespace for the purposes of `str.strip()`. -/
def isPySpace (c : Char) : Bool :=
  c = ' ' || c = '\t' || c = '\n' || c = '\r' || c = '\x0b' || c = '\x0c'

/-- Python `str.lstrip()`. -/
def trimL (s : List Char) : List Char := s.dropWhile isPySpace

/-- Python `str.rstrip()`. -/
def trimR (s : List Char) : List Char := (s.reverse.dropWhile isPySpace).reverse

/-- Python `str.strip()`. -/
def pyStrip (s : List Char) : List Char := trimR (trimL s)

/-- Python `str.split(sep)` for a one-character separator. -/
def splitOnChar (c : Char) : List Char → List (List Char)
  | [] => [[]]
  | x :: xs =>
    if x = c then [] :: splitOnChar c xs
    else
      match splitOnChar c xs with
      | [] => [[x]]
      | y :: ys => (x :: y) :: ys

/-- Python `str.splitlines()` flavour used here: split on the newline char. -/
def linesOf (s : List Char) : List (List Char) := splitOnChar '\n' s

/-- Inverse of `linesOf`: join with newlines. -/
def joinLines : List (List Char) → List Char
  | [] => []
  | [l] => l
  | l :: ls => l ++ '\n' :: joinLines ls

/-- Python `str.startswith` on char lists. -/
def startsWithChars : List Char → List Char → Bool
  | [], _ => true
  | _ :: _, [] => false
  | p :: ps, x :: xs => p = x && startsWithChars ps xs

/-- Python `str.replace(old, new)` worker with structural fuel
(`fuel ≥ s.length` suffices): replace all non-overlapping occurrences left to
right (an empty pattern leaves the string unchanged; the code never replaces
an empty name). -/
def replaceAllAux (pat rep : List Char) : Nat → List Char → List Char
  | _, [] => []
  | 0, s => s
  | fuel + 1, x :: xs =>
    match pat with
    | [] => x :: xs
    | p :: ps =>
      if startsWithChars (p :: ps) (x :: xs) then
        rep ++ replaceAllAux (p :: ps) rep fuel (xs.drop ps.length)
      else x :: replaceAllAux (p :: ps) rep fuel xs

def replaceAll (pat rep s : List Char) : List Char :=
  replaceAllAux pat rep s.length s

/-- Drop the comment lines (lines starting with an asterisk, as region
comment lines do in the deck format). -/
def stripComments (s : List Char) : List Char :=
  joinLines ((linesOf s).filter (fun l => !(startsWithChars ['*'] l)))

/-! ### Region (src/region.py) -/

/-- A 3-D point with exact rational coordinates (numpy 3-arrays in the code). -/
structure V3 where
  x : ℚ
  y : ℚ
  z : ℚ
deriving DecidableEq, Repr

def V3.zero : V3 := ⟨0, 0, 0⟩

def addV (a b : V3) : V3 := ⟨a.x + b.x, a.y + b.y, a.z + b.z⟩

def negV (a : V3) : V3 := ⟨-a.x, -a.y, -a.z⟩

def subV (a b : V3) : V3 := ⟨a.x - b.x, a.y - b.y, a.z - b.z⟩

/-- `Region` of src/region.py.  `name`/`comment` come from the GeoObject base
class (FLUKA.py, not under src/); modelled from the spec as a plain name and a
list of comment lines.  The lattice linkage fields (`latName`,
`trasfName`) are the "optional lattice linkage (name + transform name)" of the
spec's data model, used by geometry.py through `assignLat` / `assignTrasf` /
`isLattice` / `echoLatticeName` / `echoTransformName`. -/
structure Region where
  name : String
  comment : List String
  neigh : ℚ
  definition : List Char
  material : String
  rCont : Int
  rCent : V3
  rMaxLen : ℚ
  latName : Option String
  trasfName : Option String
deriving DecidableEq, Repr

/-- `Region.__init__` defaults (src/region.py lines 20-26). -/
def Region.default (myName : String) : Region :=
  { name := myName, comment := [], neigh := 5, definition := [],
    material := "BLACKHOLE", rCont := 0, rCent := V3.zero, rMaxLen := 0,
    latName := none, trasfName := none }

/-- `Region.initCont` (src/region.py lines 28-34): set the transient
containment state. -/
def Region.initCont (r : Region) (rCont : Int) (rCent : V3) (rMaxLen : ℚ) : Region :=
  { r with rCont := rCont, rCent := rCent, rMaxLen := rMaxLen }

/-- `Region.initCont()` with its default arguments: full reset. -/
def Region.initContReset (r : Region) : Region := r.initCont 0 V3.zero 0

/-- Modelled from the spec: `GeoObject.tailMe` (FLUKA.py, not under src/)
appends a line to the entity's comment block. -/
def Region.tailMe (r : Region) (l : String) : Region :=
  { r with comment := r.comment ++ [l] }

def Region.isNonEmpty (r : Region) : Bool := r.definition.length > 0

def Region.isLattice (r : Region) : Bool := r.latName.isSome

def Region.assignLat (r : Region) (n : String) : Region := { r with latName := some n }

def Region.assignTrasf (r : Region) (n : String) : Region := { r with trasfName := some n }

def Region.echoLatticeName (r : Region) : String := r.latName.getD ""

def Region.echoTransformName (r : Region) : String := r.trasfName.getD ""

def Region.isLinkedToTransform (r : Region) : Bool := r.trasfName.isSome

def Region.assignMat (r : Region) (m : String) : Region := { r with material := m }

/-! #### Region.merge (src/region.py lines 109-138) -/

/-- Decimal digits of a natural number, with a provably restricted alphabet. -/
def digitChar10 (d : Nat) : Char :=
  match d with
  | 0 => '0' | 1 => '1' | 2 => '2' | 3 => '3' | 4 => '4'
  | 5 => '5' | 6 => '6' | 7 => '7' | 8 => '8' | _ => '9'

/-- Decimal rendering with structural fuel (`fuel ≥ n` suffices). -/
def natCharsAux : Nat → Nat → List Char
  | 0, n => [digitChar10 n]
  | fuel + 1, n =>
    if n < 10 then [digitChar10 n]
    else natCharsAux fuel (n / 10) ++ [digitChar10 (n % 10)]

def natChars (n : Nat) : List Char := natCharsAux n n

/-- The `"* merging zone %s:%d into %s:%d"` comment line spliced into the
merged definition (src/region.py lines 126-127). -/
def mergeCommentLine (newName : String) (jj : Nat) (selfName : String) (ii : Nat) :
    List Char :=
  '*' :: " merging zone ".toList ++ newName.toList ++ [':'] ++ natChars jj ++
    " into ".toList ++ selfName.toList ++ [':'] ++ natChars ii

/-- Inner loop of `Region.merge`: `for jj,newRegZone in enumerate(newRegZones,1)`,
keeping the non-empty stripped zones of the absorbed region. -/
def mergeInner (ii jj : Nat) (z : List Char) :
    List (List Char) → List (Nat × List Char × Nat × List Char)
  | [] => []
  | w :: ws =>
    (if (pyStrip w).isEmpty then [] else [(ii, z, jj, pyStrip w)]) ++
      mergeInner ii (jj + 1) z ws

/-- Outer loop of `Region.merge`: `for ii,myRegZone in enumerate(myRegZones,1)`. -/
def mergePairsAux (ii : Nat) :
    List (List Char) → List (List Char) → List (Nat × List Char × Nat × List Char)
  | [], _ => []
  | z :: zs, nz =>
    (if (pyStrip z).isEmpty then [] else mergeInner ii 1 (pyStrip z) nz) ++
      mergePairsAux (ii + 1) zs nz

/-- The enumerated non-empty zone pairs formed by the nested loops of
`Region.merge`: `ii`/`jj` are 1-based positions in the raw `split("|")`
chunk lists, the payloads are the stripped chunks. -/
def mergePairs (myZones newZones : List (List Char)) :
    List (Nat × List Char × Nat × List Char) :=
  mergePairsAux 1 myZones newZones

/-- One rendered zone term `"| %s %s"`. -/
def renderZone (z w : List Char) : List Char := '|' :: ' ' :: z ++ ' ' :: w

/-- The merged definition string built by the loop of `Region.merge`:
the first pair renders bare, each further pair is preceded by a newline, the
merge comment line, a newline and the spacing. -/
def mergedDefOf (selfName newName : String) (spacing : List Char)
    (pairs : List (Nat × List Char × Nat × List Char)) : List Char :=
  match pairs with
  | [] => []
  | (_, z, _, w) :: rest =>
    renderZone z w ++
      (rest.map (fun p =>
        '\n' :: mergeCommentLine newName p.2.2.1 selfName p.1 ++
          '\n' :: spacing ++ renderZone p.2.1 p.2.2.2)).flatten

/-- `Region.merge` (src/region.py lines 109-138): fold `newReg` into `self`.
Comments are merged, the definitions are cross-multiplied zone by zone with
merge-comment lines interleaved, the neighbour hints are summed, and the
containment state is reset via `initCont()`. -/
def Region.mergeSp (r newReg : Region) (spacing : List Char) : Region :=
  let r1 := r.tailMe ("* --> merged with region " ++ newReg.name ++ " <--")
  let r2 := if newReg.comment.length > 0 then
      { r1 with comment := r1.comment ++ newReg.comment } else r1
  let pairs := mergePairs (splitOnChar '|' r.definition) (splitOnChar '|' newReg.definition)
  let r3 := match pairs with
    | [] => r2
    | (ii, _, jj, _) :: _ =>
      r2.tailMe (String.mk (mergeCommentLine newReg.name jj r.name ii))
  let r4 := { r3 with
    definition := mergedDefOf r.name newReg.name spacing pairs,
    neigh := r3.neigh + newReg.neigh }
  r4.initContReset

/-- `Region.merge` with the default 16-space continuation indentation. -/
def Region.merge (r newReg : Region) : Region :=
  r.mergeSp newReg (List.replicate 16 ' ')

/-- The zone list of a region definition: comment lines removed, the result
split on the union separator, each chunk stripped, empty chunks dropped.
This is the notion of "zone" the code itself applies when merging
(src/region.py lines 117-125, comment lines being skipped as in
`retBodiesInDef`). -/
def zonesOf (s : List Char) : List (List Char) :=
  (((splitOnChar '|' (stripComments s)).map pyStrip).filter (fun z => !z.isEmpty))

/-- The cross-product zone list asserted by the spec for `Region.merge`:
every zone of the surviving region, concatenated with every zone of the
absorbed region. -/
def crossZones (zs ws : List (List Char)) : List (List Char) :=
  zs.flatMap (fun z => ws.map (fun w => z ++ ' ' :: w))

/-- The chunks produced by splitting a rendered merged definition on the
union separator: each chunk carries its zone pair, plus the newline and
spacing run that precedes the next separator. -/
def chunksList (sp : List Char) :
    List Char → List Char → List (Nat × List Char × Nat × List Char) → List (List Char)
  | z, w, [] => [' ' :: z ++ ' ' :: w]
  | z, w, p :: ps => (' ' :: z ++ ' ' :: w ++ '\n' :: sp) :: chunksList sp p.2.1 p.2.2.2 ps

/-! ### Preprocessor (src/geometry.py, `fromInp` lines 345-374) -/

/-- Python `str.split()` (run-of-whitespace tokenisation), accumulator form. -/
def pyWordsAux : List Char → List Char → List String
  | [], acc => if acc.isEmpty then [] else [String.mk acc.reverse]
  | c :: cs, acc =>
    if isPySpace c then
      if acc.isEmpty then pyWordsAux cs [] else String.mk acc.reverse :: pyWordsAux cs []
    else pyWordsAux cs (c :: acc)

/-- Python `line.split()`. -/
def pyWords (s : String) : List String := pyWordsAux s.toList []

/-- Python `line.startswith(p)`. -/
def lineStarts (p : String) (l : String) : Bool := startsWithChars p.toList l.toList

/-- Python `str.upper()` (ASCII, which is all the code compares). -/
def pyUpper (s : String) : String := String.mk (s.toList.map Char.toUpper)

/-- Parser-side preprocessor state: the boolean `#define` flag list and the
two parallel stacks `lReads` / `lElse` of `fromInp` (list end = stack top,
as in the Python lists). -/
structure PPSt where
  flags : List String
  lReads : List Bool
  lElse : List Bool
deriving DecidableEq, Repr

/-- The state at the top of `fromInp`: `defineFlags=[]`, `lReads=[True]`,
`lElse=[]`. -/
def ppInit : PPSt := ⟨[], [true], []⟩

/-- One line of the preprocessor block of `fromInp` (src/geometry.py lines
347-374), faithful to the Python including its failure modes
(valued `#define`, missing directive argument, directives outside any open
block).  Returns the new state and, for a non-directive line, the line
itself when `all(lReads)` holds. -/
def ppStep (st : PPSt) (line : String) : Except String (PPSt × Option String) :=
  if lineStarts "#define" line then
    match pyWords line with
    | _ :: _ :: _ :: _ => .error "cannot handle define vars with numerical value"
    | [_, nm] =>
      .ok ({ st with flags := if st.flags.contains nm then st.flags else st.flags ++ [nm] }, none)
    | _ => .error "IndexError"
  else if lineStarts "#if" line then
    match pyWords line with
    | _ :: nm :: _ =>
      .ok ({ st with lReads := st.lReads ++ [st.flags.contains nm],
                     lElse := st.lElse ++ [st.flags.contains nm] }, none)
    | _ => .error "IndexError"
  else if lineStarts "#elif" line then
    match pyWords line with
    | _ :: nm :: _ =>
      match st.lReads, st.lElse.getLast? with
      | _ :: _, some lE =>
        .ok ({ st with lReads := st.lReads.dropLast ++ [st.flags.contains nm],
                       lElse := st.lElse.dropLast ++ [lE || st.flags.contains nm] }, none)
      | _, _ => .error "IndexError"
    | _ => .error "IndexError"
  else if lineStarts "#else" line then
    match st.lReads, st.lElse.getLast? with
    | _ :: _, some lE => .ok ({ st with lReads := st.lReads.dropLast ++ [!lE] }, none)
    | _, _ => .error "IndexError"
  else if lineStarts "#end" line then
    match st.lReads, st.lElse with
    | _ :: _, _ :: _ => .ok ({ st with lReads := st.lReads.dropLast, lElse := st.lElse.dropLast }, none)
    | _, _ => .error "IndexError"
  else
    .ok (st, if st.lReads.all (fun b => b) then some line else none)

/-- Prepend the optional output line of one step. -/
def consOut : Option String → List String → List String
  | some x, rest => x :: rest
  | none, rest => rest

/-- Run the preprocessor over a line list, collecting the active
non-directive lines handed to the section parser. -/
def ppRun (st : PPSt) : List String → Except String (List String)
  | [] => .ok []
  | l :: ls =>
    match ppStep st l with
    | .error e => .error e
    | .ok (st2, out) =>
      match ppRun st2 ls with
      | .error e => .error e
      | .ok rest => .ok (consOut out rest)

/-- Spec-side view of one open conditional block: the current visibility test
of the block and whether some branch of the block has already matched. -/
structure CondBlock where
  visible : Bool
  matched : Bool
deriving DecidableEq, Repr

/-- Spec-side preprocessor state: a flag set and one stack entry per open
conditional block (list end = stack top). -/
structure PPSpecSt where
  flagset : List String
  stack : List CondBlock
deriving DecidableEq, Repr

def ppSpecInit : PPSpecSt := ⟨[], []⟩

/-- A line is active when every boolean entry on the conditional-visibility
stack is true. -/
def specVisibleAll (st : PPSpecSt) : Bool := st.stack.all (fun b => b.visible)

/-- Spec-side preprocessor step, written from the claim's words: `#define
NAME` adds NAME to the flag set; `#if NAME` pushes the test `NAME in flag
set`; `#elif NAME` replaces the top entry with that test while tracking
whether any branch of the block has matched; `#else` replaces the top entry
with the negation of "some branch already matched"; `#end` pops one entry; a
non-directive line is processed if and only if every entry is true. -/
def ppSpecStep (st : PPSpecSt) (line : String) : Option (PPSpecSt × Option String) :=
  if lineStarts "#define" line then
    match pyWords line with
    | [_, nm] =>
      some ({ st with flagset := if st.flagset.contains nm then st.flagset else st.flagset ++ [nm] }, none)
    | _ => none
  else if lineStarts "#if" line then
    match pyWords line with
    | _ :: nm :: _ =>
      some ({ st with stack := st.stack ++ [⟨st.flagset.contains nm, st.flagset.contains nm⟩] }, none)
    | _ => none
  else if lineStarts "#elif" line then
    match pyWords line with
    | _ :: nm :: _ =>
      match st.stack.getLast? with
      | some b =>
        some ({ st with stack := st.stack.dropLast ++
                  [⟨st.flagset.contains nm, b.matched || st.flagset.contains nm⟩] }, none)
      | none => none
    | _ => none
  else if lineStarts "#else" line then
    match st.stack.getLast? with
    | some b => some ({ st with stack := st.stack.dropLast ++ [⟨!b.matched, b.matched⟩] }, none)
    | none => none
  else if lineStarts "#end" line then
    match st.stack with
    | _ :: _ => some ({ st with stack := st.stack.dropLast }, none)
    | [] => none
  else
    some (st, if specVisibleAll st then some line else none)

/-- Run the spec-side preprocessor. -/
def ppSpecRun (st : PPSpecSt) : List String → Option (List String)
  | [] => some []
  | l :: ls =>
    match ppSpecStep st l with
    | none => none
    | some (st2, out) =>
      match ppSpecRun st2 ls with
      | none => none
      | some rest => some (consOut out rest)

/-! ### Transformations, bodies, scoring cards, the geometry aggregate -/

/-- Modelled from the spec: one elementary ROT-DEFI step (class `RotDefi` of
transformation.py, which is not under src/).  A rotation step stores the card
azimuth for one axis; per the external-format contract (and the docstring of
`solidTrasform`, src/geometry.py lines 746-751) the card azimuth is the
negation of the corresponding right-handed rotation angle.  A translation
step stores the card offset. -/
inductive RotDefi
  | rot (ax : Nat) (azimuth : ℚ)
  | transl (dd : V3)
deriving DecidableEq, Repr

/-- The right-handed rotation angle represented by a card rotation step:
the negation of the stored azimuth (0 for a translation step). -/
def rhAngleOf : RotDefi → ℚ
  | .rot _ az => -az
  | .transl _ => 0

/-- Modelled from the spec: a named ordered list of elementary
rotation/translation steps with a numeric ID fallback (class `Transformation`
of transformation.py, not under src/). -/
structure Transformation where
  id : Int
  name : String
  comment : List String
  rotdefis : List RotDefi
deriving DecidableEq, Repr

/-- Modelled from the spec: `Transformation.AddRotDefis(list, iAdd)`
(transformation.py, not under src/).  Each incoming step is inserted at the
given position in turn; with `iAdd=0` (`atHead`) the incoming list therefore
lands reversed in front of the existing steps — which realises the spec's
external-format contract that the recorded card holds the translation step
first and the rotation steps second, given that `solidTrasform` builds its
in-memory list rotation-first (src/geometry.py lines 773-813).  With
`iAdd=-1` (wrap mode, where the code passes the inverse list already
reversed) the steps are appended at the tail. -/
def Transformation.addRotDefis (t : Transformation) (steps : List RotDefi) (atHead : Bool) :
    Transformation :=
  if atHead then { t with rotdefis := steps.reverse ++ t.rotdefis }
  else { t with rotdefis := t.rotdefis ++ steps }

/-- Modelled from the spec: the rotation-matrix collaborator (myMath.RotMat,
an out-of-scope external per §1).  Only the interface consumed by
geometry.py is modelled: the Gimbal angles of the matrix and of its inverse
(`GetGimbalAngles`, `inv`). -/
structure RotMatM where
  gimbal : List ℚ
  invGimbal : List ℚ
deriving DecidableEq, Repr

def RotMatM.inv (m : RotMatM) : RotMatM := ⟨m.invGimbal, m.gimbal⟩

/-- The identity rotation matrix: all Gimbal angles zero. -/
def identM : RotMatM := ⟨[0, 0, 0], [0, 0, 0]⟩

/-- Modelled from the spec: a `Body` (body.py, not under src/) is a named
primitive exposing identity and rotate/translate capability, opaque
otherwise; its geometric payload is modelled as a center point, plus the
`$start_transform` geometry-directive link consumed by geometry.py
(`isLinkedToTransform` / `retTransformName` / `linkTransformName`). -/
structure Body where
  name : String
  comment : List String
  center : V3
  trasfName : Option String
deriving DecidableEq, Repr

def Body.traslate (b : Body) (dd : V3) : Body := { b with center := addV b.center dd }

/-- Modelled from the spec: pointwise rotation of a body.  The actual matrix
action is rotation-matrix/Euler math, explicitly out of scope (§1); no claim
in this development depends on a body payload under a non-identity rotation
(the identity action is the only one exercised), so the carrier is kept. -/
def Body.rotate (b : Body) (_m : RotMatM) : Body := b

def Body.isLinkedToTransform (b : Body) : Bool := b.trasfName.isSome

def Body.retTransformName (b : Body) : String := b.trasfName.getD ""

def Body.linkTransformName (b : Body) (n : String) : Body := { b with trasfName := some n }

/-- Modelled from the spec: rotation matrix built from one angle/axis pair
(`RotMat(myAng,myAxis)` of myMath, not under src/): its Gimbal angles carry
the angle on the given axis. -/
def rotMatOfAngle (th : ℚ) (ax : Nat) : RotMatM :=
  ⟨[(if ax = 1 then th else 0), (if ax = 2 then th else 0), (if ax = 3 then th else 0)],
   [(if ax = 1 then -th else 0), (if ax = 2 then -th else 0), (if ax = 3 then -th else 0)]⟩

/-- `Usrbin` (src/scorings.py): the fixed-format definition text is kept
opaque; the numeric payload moved by `move` is modelled as a center point
(Modelled from the spec for the `move`/`assignTransformName` interface that
geometry.py consumes).  A bin is transform-linked when its transform name is
non-empty (src/scorings.py line 33). -/
structure Usrbin where
  name : String
  comment : List String
  transfName : String
  center : V3
deriving DecidableEq, Repr

def Usrbin.isLinkedToTransform (u : Usrbin) : Bool := !u.transfName.isEmpty

def Usrbin.retTransformName (u : Usrbin) : String := u.transfName

def Usrbin.assignTransformName (u : Usrbin) (n : String) : Usrbin := { u with transfName := n }

def Usrbin.move (u : Usrbin) (dd : V3) : Usrbin := { u with center := addV u.center dd }

/-- Region-based scoring cards: the closed tagged variant over the four
scoring-card kinds held in `Geometry.scos` (`Usryield`, `Usrbdx`, `Usrtrack`,
`Usrcoll` — imported by geometry.py from scorings.py; the subclasses are
modelled from the spec as a sum type, per the spec's design note). -/
inductive Sco
  | usryield (name : String) (defn : List Char)
  | usrbdx (name : String) (defn : List Char)
  | usrtrack (name : String) (defn : List Char)
  | usrcoll (name : String) (defn : List Char)
deriving DecidableEq, Repr

def Sco.name : Sco → String
  | .usryield n _ => n
  | .usrbdx n _ => n
  | .usrtrack n _ => n
  | .usrcoll n _ => n

def Sco.isUsryield : Sco → Bool
  | .usryield _ _ => true
  | _ => false

def Sco.isUsrbdx : Sco → Bool
  | .usrbdx _ _ => true
  | _ => false

def Sco.isUsrtrack : Sco → Bool
  | .usrtrack _ _ => true
  | _ => false

def Sco.isUsrcoll : Sco → Bool
  | .usrcoll _ _ => true
  | _ => false

def Sco.rename (s : Sco) (n : String) : Sco :=
  match s with
  | .usryield _ d => .usryield n d
  | .usrbdx _ d => .usrbdx n d
  | .usrtrack _ d => .usrtrack n d
  | .usrcoll _ d => .usrcoll n d

/-- `Geometry` (src/geometry.py lines 36-42): ordered collections of bodies,
regions, transformations, USRBINs and region-based scorings, plus a title. -/
structure Geometry where
  bods : List Body
  regs : List Region
  tras : List Transformation
  bins : List Usrbin
  scos : List Sco
  title : String
deriving DecidableEq, Repr

def emptyGeometry : Geometry := ⟨[], [], [], [], [], ""⟩

/-- Index-collecting comprehension `[ii for ii,x in enumerate(xs) if p x]`. -/
def idxWhereAux {α : Type} (p : α → Bool) : List α → Nat → List Nat
  | [], _ => []
  | x :: xs, i => (if p x then [i] else []) ++ idxWhereAux p xs (i + 1)

def idxWhere {α : Type} (p : α → Bool) (xs : List α) : List Nat := idxWhereAux p xs 0

/-! ### The query engine `Geometry.ret` (src/geometry.py lines 139-322) -/

/-- The shared name-matching loop of the singular `ret` branches:
`for iEntry,myEntry in enumerate(coll): if match: break`, reporting the first
hit and its index, or nothing. -/
def loopFindP {α : Type} (p : α → Bool) : List α → Nat → Option (α × Nat)
  | [], _ => none
  | x :: xs, i => if p x then some (x, i) else loopFindP p xs (i + 1)

/-- Result of one `ret` branch: a found entity with its index, an "ALL"
name/index listing, or the not-found sentinel `(None, -1)`. -/
inductive RetR (α : Type)
  | found (x : α) (i : Int)
  | allOf (names : List String) (idxs : List Int)
  | notFound
deriving DecidableEq, Repr

/-- `ret("BOD",...)` branch (src/geometry.py lines 157-166). -/
def retBod (g : Geometry) (v : String) : RetR Body :=
  if pyUpper v = "ALL" then
    .allOf (g.bods.map Body.name) ((List.range g.bods.length).map Int.ofNat)
  else
    match loopFindP (fun b => b.name == v) g.bods 0 with
    | some (b, i) => .found b (Int.ofNat i)
    | none => .notFound

/-- `ret("LAT",...)` branch (src/geometry.py lines 167-176). -/
def retLat (g : Geometry) (v : String) : RetR Region :=
  if pyUpper v = "ALL" then
    .allOf ((g.regs.filter Region.isLattice).map Region.echoLatticeName)
      ((idxWhere Region.isLattice g.regs).map Int.ofNat)
  else
    match loopFindP (fun r => r.echoLatticeName == v) g.regs 0 with
    | some (r, i) => .found r (Int.ofNat i)
    | none => .notFound

/-- `ret("REG",...)` branch (src/geometry.py lines 177-186). -/
def retReg (g : Geometry) (v : String) : RetR Region :=
  if pyUpper v = "ALL" then
    .allOf (g.regs.map Region.name) ((List.range g.regs.length).map Int.ofNat)
  else
    match loopFindP (fun r => r.name == v) g.regs 0 with
    | some (r, i) => .found r (Int.ofNat i)
    | none => .notFound

/-- `ret("TRANSF",...)` branch (src/geometry.py lines 238-247). -/
def retTransf (g : Geometry) (v : String) : RetR Transformation :=
  if pyUpper v = "ALL" then
    .allOf (g.tras.map Transformation.name) ((List.range g.tras.length).map Int.ofNat)
  else
    match loopFindP (fun t => t.name == v) g.tras 0 with
    | some (t, i) => .found t (Int.ofNat i)
    | none => .notFound

/-- `ret("BIN",...)` branch (src/geometry.py lines 256-265). -/
def retBin (g : Geometry) (v : String) : RetR Usrbin :=
  if pyUpper v = "ALL" then
    .allOf (g.bins.map Usrbin.name) ((List.range g.bins.length).map Int.ofNat)
  else
    match loopFindP (fun u => u.name == v) g.bins 0 with
    | some (u, i) => .found u (Int.ofNat i)
    | none => .notFound

/-- `ret("SCO",...)` branch (src/geometry.py lines 266-275). -/
def retSco (g : Geometry) (v : String) : RetR Sco :=
  if pyUpper v = "ALL" then
    .allOf (g.scos.map Sco.name) ((List.range g.scos.length).map Int.ofNat)
  else
    match loopFindP (fun s => s.name == v) g.scos 0 with
    | some (s, i) => .found s (Int.ofNat i)
    | none => .notFound

/-- The common shape of the four scoring-subkind branches of `ret`
(src/geometry.py lines 276-315): on "ALL", the name list is filtered to the
subkind while the index list enumerates the whole scoring collection; on a
name, the loop matches name and subkind. -/
def retScoKind (p : Sco → Bool) (g : Geometry) (v : String) : RetR Sco :=
  if pyUpper v = "ALL" then
    .allOf ((g.scos.filter p).map Sco.name) ((List.range g.scos.length).map Int.ofNat)
  else
    match loopFindP (fun s => s.name == v && p s) g.scos 0 with
    | some (s, i) => .found s (Int.ofNat i)
    | none => .notFound

/-- `ret("USRYIELD",...)` (src/geometry.py lines 276-285). -/
def retUsryield (g : Geometry) (v : String) : RetR Sco := retScoKind Sco.isUsryield g v

/-- `ret("USRBDX",...)` (src/geometry.py lines 286-295). -/
def retUsrbdx (g : Geometry) (v : String) : RetR Sco := retScoKind Sco.isUsrbdx g v

/-- `ret("USRTRACK",...)` (src/geometry.py lines 296-305). -/
def retUsrtrack (g : Geometry) (v : String) : RetR Sco := retScoKind Sco.isUsrtrack g v

/-- `ret("USRCOLL",...)` (src/geometry.py lines 306-315). -/
def retUsrcoll (g : Geometry) (v : String) : RetR Sco := retScoKind Sco.isUsrcoll g v

/-- Singular `ret("TRANSFLINKEDTOBODY", name)` (src/geometry.py lines
195-203): a missing body name is fatal (`exit(1)`); for an existing body the
transform lookup result is discarded because the code sets
`lFound = myEntry is None` (an inverted flag), so the sentinel is returned in
every surviving case. -/
def retTransfLinkedToBodyOne (g : Geometry) (v : String) :
    Except String (Option Transformation × Int) :=
  match loopFindP (fun b => b.name == v) g.bods 0 with
  | none => .error "cannot find body named"
  | some (b, _) =>
    if b.isLinkedToTransform then
      match loopFindP (fun t => t.name == b.retTransformName) g.tras 0 with
      | some _ => .ok (none, -1)
      | none => .ok (none, -1)
    else .ok (none, -1)

/-- Singular `ret("TRANSFLINKEDTOLAT", name)` (src/geometry.py lines
212-220): same shape over the lattice-region lookup. -/
def retTransfLinkedToLatOne (g : Geometry) (v : String) :
    Except String (Option Transformation × Int) :=
  match loopFindP (fun r => r.echoLatticeName == v) g.regs 0 with
  | none => .error "cannot find body named"
  | some (r, _) =>
    if r.isLinkedToTransform then
      match loopFindP (fun t => t.name == r.echoTransformName) g.tras 0 with
      | some _ => .ok (none, -1)
      | none => .ok (none, -1)
    else .ok (none, -1)

/-- Singular `ret("TRANSFLINKEDTOUSRBIN", name)` (src/geometry.py lines
229-237): same shape over the USRBIN lookup. -/
def retTransfLinkedToUsrbinOne (g : Geometry) (v : String) :
    Except String (Option Transformation × Int) :=
  match loopFindP (fun u => u.name == v) g.bins 0 with
  | none => .error "cannot find USRBIN named"
  | some (u, _) =>
    if u.isLinkedToTransform then
      match loopFindP (fun t => t.name == u.retTransformName) g.tras 0 with
      | some _ => .ok (none, -1)
      | none => .ok (none, -1)
    else .ok (none, -1)

/-- `ret("TRANSFLINKEDTOBODY","ALL")` (src/geometry.py lines 188-194).
The code forms `list(set([...]))`: Python set iteration order for strings is
hash-randomised and is not a function of the geometry, so the de-duplication
order is taken as a parameter. -/
def retTransfLinkedToBodyAll (setOrder : List String → List String) (g : Geometry) :
    List String × List Int :=
  let names := setOrder (g.bods.filterMap Body.trasfName)
  (names, names.map (fun nm =>
    match loopFindP (fun t => t.name == nm) g.tras 0 with
    | some (_, i) => Int.ofNat i
    | none => -1))

/-! ### Flag-cardinality mapping `MapContRegs` (src/geometry.py lines 1902-1963) -/

/-- The mapping dictionary produced by the mappers: parallel index lists of
container-region / contained-region indices and their geometry-list indices. -/
structure ContMapping where
  iRhg : List Nat
  jRhg : List Nat
  iRgg : List Nat
  jRgg : List Nat
deriving DecidableEq, Repr

/-- `MapContRegs(CtainGeo, CinedGeo)` (src/geometry.py lines 1902-1963),
faithful to the branch conditions of lines 1938-1956 including the uncaught
`IndexError` when the `oneHive` fallback reads `iRhgs[0]` with no container
region flagged. -/
def mapContRegs (ctain cined : Geometry) : Except String (ContMapping × String) :=
  let iRhgs := idxWhere (fun r => r.rCont == 1) ctain.regs
  let iRggs := idxWhere (fun r => r.rCont == -1) cined.regs
  if 1 < iRhgs.length && 1 < iRggs.length then
    .error "Cannot merge many contained regions into many containing regions"
  else if 1 ≤ iRhgs.length && iRggs.length == 1 then
    match iRggs with
    | j :: _ =>
      .ok (⟨iRhgs, iRhgs.map (fun _ => 0), iRhgs.map (fun _ => j),
            iRhgs.map (fun _ => 0)⟩, "oneGrid")
    | [] => .error "unreachable"
  else
    match iRggs, iRhgs with
    | [], _ => .ok (⟨[], [], [], []⟩, "oneHive")
    | _ :: _, [] => .error "IndexError: list index out of range"
    | _ :: _, i0 :: _ =>
      .ok (⟨iRggs.map (fun _ => i0), iRggs.map (fun _ => 0), iRggs,
            iRggs.map (fun _ => 0)⟩, "oneHive")

/-! ### Transform composer `Geometry.solidTrasform` (src/geometry.py lines 740-910) -/

/-- The rotation argument of `solidTrasform`: nothing, a matrix (`myMat`), a
single angle/axis pair, or parallel angle/axis lists (which the code replays
through recursive single-angle calls). -/
inductive RotArg
  | noRot
  | byMat (m : RotMatM)
  | byAngle (th : ℚ) (ax : Nat)
  | byAngles (ths : List ℚ) (axs : List Nat)
deriving DecidableEq, Repr

/-- ROT-DEFI steps from Gimbal angles: `for myAx,myTh in enumerate(thetas,1):
if myTh!=0.0: append RotDefi(myAx, sgn*myTh)` (src/geometry.py lines
780-783). -/
def gimbalStepsFrom (ax : Nat) (sgn : ℚ) : List ℚ → List RotDefi
  | [] => []
  | th :: rest =>
    (if th = 0 then [] else [RotDefi.rot ax (sgn * th)]) ++ gimbalStepsFrom (ax + 1) sgn rest

/-- `if x not in acc: acc.append(x)`. -/
def addIfNew (l : List String) (x : String) : List String :=
  if l.contains x then l else l ++ [x]

/-- First-seen de-duplicated transform names of the linked bodies
(the `tTrasfs` accumulation of src/geometry.py lines 824-827). -/
def bodLinkNamesAux (acc : List String) : List Body → List String
  | [] => acc
  | b :: bs =>
    match b.trasfName with
    | some nm => bodLinkNamesAux (addIfNew acc nm) bs
    | none => bodLinkNamesAux acc bs

/-- `tTrasfs` accumulation over lattice regions (src/geometry.py lines
850-857). -/
def latLinkNamesAux (acc : List String) : List Region → List String
  | [] => acc
  | r :: rs =>
    if r.isLattice && r.isLinkedToTransform then
      latLinkNamesAux (addIfNew acc r.echoTransformName) rs
    else latLinkNamesAux acc rs

/-- `tTrasfs` accumulation over USRBINs (src/geometry.py lines 882-891):
linked bins contribute their transform name; in translation-only mode
unlinked bins are moved instead and contribute nothing. -/
def binLinkNamesAux (lTraslOnly : Bool) (acc : List String) : List Usrbin → List String
  | [] => acc
  | u :: us =>
    if lTraslOnly && !u.isLinkedToTransform then binLinkNamesAux lTraslOnly acc us
    else if u.isLinkedToTransform then binLinkNamesAux lTraslOnly (addIfNew acc u.retTransformName) us
    else binLinkNamesAux lTraslOnly acc us

/-- Replace the first element satisfying `p` (the object returned by a
singular `ret` and then mutated in place); `none` when no element matches
(the Python `None` whose method call would raise). -/
def updateFirstBy {α : Type} (p : α → Bool) (f : α → α) : List α → Option (List α)
  | [] => none
  | x :: xs => if p x then some (f x :: xs) else (updateFirstBy p f xs).map (fun ys => x :: ys)

/-- The `for myTrasName in tTrasfs` update loop shared by the three sections
of `solidTrasform` (src/geometry.py lines 839-842, 866-872, 901-904):
prepend the current ROT-DEFI list to each named transformation, appending
the reversed inverse list as well in wrap mode; a dangling name is fatal
(`AttributeError` on `None`). -/
def addToNamed (steps stepsInv : List RotDefi) (wrap : Bool) :
    List Transformation → List String → Except String (List Transformation)
  | tras, [] => .ok tras
  | tras, nm :: rest =>
    match updateFirstBy (fun t => t.name == nm)
        (fun t =>
          let t1 := t.addRotDefis steps true
          if wrap then t1.addRotDefis stepsInv.reverse false else t1) tras with
    | none => .error "AttributeError: transformation not found"
    | some tras2 => addToNamed steps stepsInv wrap tras2 rest

/-- Attach the head comment to the (first) transformation with the given
name, as `myEntry.headMe(myComment)` does after a successful `ret`. -/
def attachComment (tras : List Transformation) (lCreate : Bool) (nm : String)
    (myComment : Option String) : Except String (List Transformation) :=
  match myComment with
  | none => .ok tras
  | some c =>
    if lCreate then
      match updateFirstBy (fun t => t.name == nm) (fun t => { t with comment := c :: t.comment }) tras with
      | none => .error "AttributeError: transformation not found"
      | some ts => .ok ts
    else .ok tras

/-- Bodies part of `solidTrasform` in geometry-directive mode
(src/geometry.py lines 822-846). -/
def bodiesSec (g : Geometry) (steps : List RotDefi) (myName : String)
    (myComment : Option String) : Except String Geometry :=
  let tname := myName ++ "_bdy"
  let tT0 := bodLinkNamesAux [] g.bods
  let lCreate := g.bods.any (fun b => !b.isLinkedToTransform)
  let bods2 := g.bods.map (fun b => if b.isLinkedToTransform then b else b.linkTransformName tname)
  let created :=
    if lCreate then
      match loopFindP (fun t => t.name == tname) g.tras 0 with
      | none => (g.tras ++ [⟨Int.ofNat g.tras.length + 1, tname, [], []⟩], tT0 ++ [tname])
      | some _ => (g.tras, tT0)
    else (g.tras, tT0)
  match addToNamed steps [] false created.1 created.2 with
  | .error e => .error e
  | .ok tras2 =>
    match attachComment tras2 lCreate tname myComment with
    | .error e => .error e
    | .ok tras3 => .ok { g with bods := bods2, tras := tras3 }

/-- LATTICE part of `solidTrasform` (src/geometry.py lines 848-876). -/
def latticeSec (g : Geometry) (steps stepsInv : List RotDefi) (lWrapGeo : Bool)
    (myName : String) (myComment : Option String) : Except String Geometry :=
  let tname := myName ++ "_lat"
  let tT0 := latLinkNamesAux [] g.regs
  let lCreate := g.regs.any (fun r => r.isLattice && !r.isLinkedToTransform)
  let regs2 := g.regs.map (fun r =>
    if r.isLattice && !r.isLinkedToTransform then r.assignTrasf tname else r)
  let created :=
    if lCreate then
      match loopFindP (fun t => t.name == tname) g.tras 0 with
      | none => (g.tras ++ [⟨Int.ofNat g.tras.length + 1, tname, [], []⟩], tT0 ++ [tname])
      | some _ => (g.tras, tT0)
    else (g.tras, tT0)
  match addToNamed steps stepsInv lWrapGeo created.1 created.2 with
  | .error e => .error e
  | .ok tras2 =>
    match attachComment tras2 lCreate tname myComment with
    | .error e => .error e
    | .ok tras3 => .ok { g with regs := regs2, tras := tras3 }

/-- USRBIN part of `solidTrasform` (src/geometry.py lines 878-908). -/
def binsSec (g : Geometry) (steps : List RotDefi) (dd : Option V3)
    (lTraslOnly : Bool) (myName : String) (myComment : Option String) :
    Except String Geometry :=
  let tname := myName ++ "_bin"
  let tT0 := binLinkNamesAux lTraslOnly [] g.bins
  let lCreate := g.bins.any (fun u => !lTraslOnly && !u.isLinkedToTransform)
  let bins2 := g.bins.map (fun u =>
    if lTraslOnly && !u.isLinkedToTransform then u.move (dd.getD V3.zero)
    else if u.isLinkedToTransform then u
    else u.assignTransformName tname)
  let created :=
    if lCreate then
      match loopFindP (fun t => t.name == tname) g.tras 0 with
      | none => (g.tras ++ [⟨Int.ofNat g.tras.length + 1, tname, [], []⟩], tT0 ++ [tname])
      | some _ => (g.tras, tT0)
    else (g.tras, tT0)
  match addToNamed steps [] false created.1 created.2 with
  | .error e => .error e
  | .ok tras2 =>
    match attachComment tras2 lCreate tname myComment with
    | .error e => .error e
    | .ok tras3 => .ok { g with bins := bins2, tras := tras3 }

/-- The three linkage sections of `solidTrasform`, entered when the built
ROT-DEFI list is non-empty (src/geometry.py lines 814-908). -/
def solidSections (g : Geometry) (steps stepsInv : List RotDefi) (dd : Option V3)
    (lTraslOnly lGeoDirs lOnlyGeo lWrapGeo : Bool) (myName : String)
    (myComment : Option String) : Except String Geometry :=
  match (if lGeoDirs then bodiesSec g steps myName myComment else .ok g) with
  | .error e => .error e
  | .ok g1 =>
    match latticeSec g1 steps stepsInv lWrapGeo myName myComment with
    | .error e => .error e
    | .ok g2 => if lOnlyGeo then .ok g2 else binsSec g2 steps dd lTraslOnly myName myComment

/-- The translation block and section dispatch of `solidTrasform`
(src/geometry.py lines 803-908), after the rotation block computed
`rotSteps`/`rotStepsInv` and baked any rotation into the bodies. -/
def solidRest (g : Geometry) (rotSteps rotStepsInv : List RotDefi) (dd : Option V3)
    (lTraslOnly lGeoDirs lOnlyGeo lWrapGeo : Bool) (myName : String)
    (myComment : Option String) : Except String Geometry :=
  let g1 := match dd with
    | some v => if lGeoDirs then g else { g with bods := g.bods.map (fun b => b.traslate v) }
    | none => g
  let steps := rotSteps ++ (match dd with | some v => [RotDefi.transl (negV v)] | none => [])
  let stepsInv := rotStepsInv ++ (match dd with | some v => [RotDefi.transl v] | none => [])
  if steps.isEmpty then .ok g1
  else solidSections g1 steps stepsInv dd lTraslOnly lGeoDirs lOnlyGeo lWrapGeo myName myComment

/-- `solidTrasform` for a non-list rotation argument (src/geometry.py lines
740-910).  `lTraslOnly` is `dd is not None and myMat is None and
myTheta is None` (line 881). -/
def solidTrasformSingle (g : Geometry) (dd : Option V3) (rot : RotArg)
    (lGeoDirs lOnlyGeo lWrapGeo : Bool) (myName : String) (myComment : Option String) :
    Except String Geometry :=
  match rot with
  | .noRot =>
    match dd with
    | none => .ok g
    | some _ => solidRest g [] [] dd true lGeoDirs lOnlyGeo lWrapGeo myName myComment
  | .byMat m =>
    let g1 := if lGeoDirs then g else { g with bods := g.bods.map (fun b => b.rotate m) }
    solidRest g1 (gimbalStepsFrom 1 1 m.gimbal) (gimbalStepsFrom 1 (-1) m.gimbal)
      dd false lGeoDirs lOnlyGeo lWrapGeo myName myComment
  | .byAngle th ax =>
    if th = 0 then solidRest g [] [] dd false lGeoDirs lOnlyGeo lWrapGeo myName myComment
    else
      let g1 := if lGeoDirs then g
        else { g with bods := g.bods.map (fun b => b.rotate (rotMatOfAngle th ax)) }
      solidRest g1 [RotDefi.rot ax th] [RotDefi.rot ax (-th)] dd false lGeoDirs lOnlyGeo
        lWrapGeo myName myComment
  | .byAngles _ _ => .error "unsupported in the single-angle core"

/-- Fold of the recursive single-angle calls of the θ-list branch
(src/geometry.py lines 790-793): each recursion passes only the angle/axis
pair and the mode flags, with the default transform name and no comment. -/
def solidAnglesFold (lGeoDirs lOnlyGeo lWrapGeo : Bool) :
    Geometry → List (ℚ × Nat) → Except String Geometry
  | g, [] => .ok g
  | g, p :: ps =>
    match solidTrasformSingle g none (.byAngle p.1 p.2) lGeoDirs lOnlyGeo lWrapGeo
        "ToFinPos" none with
    | .error e => .error e
    | .ok g2 => solidAnglesFold lGeoDirs lOnlyGeo lWrapGeo g2 ps

/-- `Geometry.solidTrasform` (src/geometry.py lines 740-910). -/
def solidTrasform (g : Geometry) (dd : Option V3) (rot : RotArg)
    (lGeoDirs lOnlyGeo lWrapGeo : Bool) (myName : String) (myComment : Option String) :
    Except String Geometry :=
  match rot with
  | .byAngles ths axs =>
    if ths.length ≠ axs.length then .error "inconsistent number of angles and axes"
    else
      match solidAnglesFold lGeoDirs lOnlyGeo lWrapGeo g (ths.zip axs) with
      | .error e => .error e
      | .ok g1 => solidRest g1 [] [] dd false lGeoDirs lOnlyGeo lWrapGeo myName myComment
  | r => solidTrasformSingle g dd r lGeoDirs lOnlyGeo lWrapGeo myName myComment

/-- Net card translation of a step chain (sum of the translation steps). -/
def netCardTransl : List RotDefi → V3
  | [] => V3.zero
  | .transl v :: rest => addV v (netCardTransl rest)
  | .rot _ _ :: rest => netCardTransl rest

/-- Whether a chain holds any rotation step. -/
def hasRotStep : List RotDefi → Bool
  | [] => false
  | .rot _ _ :: _ => true
  | .transl _ :: rest => hasRotStep rest

/-- The forward solid translation represented by a rotation-free ROT-DEFI
chain: the card expresses the inverse transformation (docstring of
`solidTrasform`, src/geometry.py lines 746-751), so the forward offset is
the negated sum of the card translations. -/
def netForwardTransl (steps : List RotDefi) : V3 := negV (netCardTransl steps)

/-! ### Clone operations, renaming and the gridded-geometry builder
(src/geometry.py lines 693-738, 912-1009, 1415-1497) -/

/-- `Geometry.ActualCopy` (src/geometry.py lines 693-710): full clone; when
scoring is not carried over, transformations whose name is not linked to any
body are dropped and the bins/scorings are not copied. -/
def actualCopy (src : Geometry) (lTrigScoring : Bool) : Geometry :=
  if lTrigScoring then
    { bods := src.bods, regs := src.regs, tras := src.tras, bins := src.bins,
      scos := src.scos, title := src.title }
  else
    let keep := src.bods.filterMap Body.trasfName
    { bods := src.bods, regs := src.regs,
      tras := src.tras.filter (fun t => keep.contains t.name),
      bins := [], scos := [], title := src.title }

/-- `Geometry.LatticeCopy` (src/geometry.py lines 712-738): a fresh geometry
holding a single material-only placeholder region flagged as a lattice cell,
plus a copy of the prototype's transformations (and scorings when carried
over; otherwise bin-linked transformations are dropped). -/
def latticeCopy (src : Geometry) (lTrigScoring : Bool)
    (regName latName latMat : String) : Geometry :=
  let myReg := { Region.default regName with latName := some latName, material := latMat }
  let tras :=
    if lTrigScoring then src.tras
    else
      let binNames := (src.bins.filter Usrbin.isLinkedToTransform).map Usrbin.retTransformName
      src.tras.filter (fun t => !binNames.contains t.name)
  { bods := [], regs := [myReg], tras := tras,
    bins := if lTrigScoring then src.bins else [],
    scos := if lTrigScoring then src.scos else [],
    title := "LATTICE of " ++ src.title }

/-- `Geometry.flagRegs` (src/geometry.py lines 996-1009) for a list argument:
each named region gets `initCont(rCont, rCent)` (resetting `rMaxLen` to its
default); a missing name is fatal (`AttributeError` on `None`). -/
def flagRegsGo (rCont : Int) (rCent : V3) :
    List Region → List String → Except String (List Region)
  | regs, [] => .ok regs
  | regs, nm :: rest =>
    match updateFirstBy (fun r => r.name == nm) (fun r => r.initCont rCont rCent 0) regs with
    | none => .error "AttributeError: region not found"
    | some regs2 => flagRegsGo rCont rCent regs2 rest

def flagRegs (g : Geometry) (whichRegs : List String) (rCont : Int) (rCent : V3) :
    Except String Geometry :=
  let regs2mod :=
    if (whichRegs.map pyUpper).contains "ALL" then g.regs.map Region.name
    else whichRegs
  match flagRegsGo rCont rCent g.regs regs2mod with
  | .error e => .error e
  | .ok regs2 => .ok { g with regs := regs2 }

/-- Zero-padded decimal rendering of a natural number to a given width. -/
def padNat (w n : Nat) : List Char :=
  let ds := natChars n
  List.replicate (w - ds.length) '0' ++ ds

/-- Modelled from the spec: `TailNameInt` (FLUKA.py, not under src/) yields a
name format appending `addChar` and a zero-padded index to the base name
("every body/region/transform name equals the prefix + zero-padded index",
spec §8). -/
def nameFmt (base : String) (nDigits i : Nat) : String :=
  base ++ "_" ++ String.mk (padNat nDigits i)

/-- Sequential body-name replacement in a region definition
(`Region.BodyNameReplaceInDef`, src/region.py lines 60-63). -/
def replaceSeq (d : List Char) : List (String × String) → List Char
  | [] => d
  | (o, n) :: rest => replaceSeq (replaceAll o.toList n.toList d) rest

/-- `oldTrasNames.index`-style positional lookup among the rename pairs. -/
def lookupPair (olds news : List String) (nm : String) : Option String :=
  ((olds.zip news).find? (fun p => p.1 == nm)).map (fun p => p.2)

/-- Transform-link fixing of one USRBIN during rename (src/geometry.py lines
949-968): a linked bin whose transform is not among the renamed ones is
fatal. -/
def renameBins (olds news : List String) (base : String) :
    List Usrbin → Nat → Except String (List Usrbin)
  | [], _ => .ok []
  | u :: us, i =>
    let fixed :=
      if u.isLinkedToTransform then
        match lookupPair olds news u.retTransformName with
        | some nn => Except.ok (u.assignTransformName nn)
        | none => Except.error "cannot find transformation named"
      else Except.ok u
    match fixed with
    | .error e => .error e
    | .ok u2 =>
      match renameBins olds news base us (i + 1) with
      | .error e => .error e
      | .ok us2 => .ok ({ u2 with name := nameFmt base 3 (i + 1) } :: us2)

/-- Second pass over bodies during rename (src/geometry.py lines 978-985):
re-point geometry-directive links at the renamed transformations. -/
def renameBodLinks (olds news : List String) :
    List Body → Except String (List Body)
  | [] => .ok []
  | b :: bs =>
    let fixed :=
      if b.isLinkedToTransform then
        match lookupPair olds news b.retTransformName with
        | some nn => Except.ok (b.linkTransformName nn)
        | none => Except.error "cannot find name of transformation for moving body"
      else Except.ok b
    match fixed with
    | .error e => .error e
    | .ok b2 =>
      match renameBodLinks olds news bs with
      | .error e => .error e
      | .ok bs2 => .ok (b2 :: bs2)

/-- Second pass over regions during rename (src/geometry.py lines 986-993):
re-point lattice transform links. -/
def renameRegLinks (olds news : List String) :
    List Region → Except String (List Region)
  | [] => .ok []
  | r :: rs =>
    let fixed :=
      if r.isLattice then
        match lookupPair olds news r.echoTransformName with
        | some nn => Except.ok (r.assignTrasf nn)
        | none => Except.error "cannot find name of transformation for moving LATTICE region"
      else Except.ok r
    match fixed with
    | .error e => .error e
    | .ok r2 =>
      match renameRegLinks olds news rs with
      | .error e => .error e
      | .ok rs2 => .ok (r2 :: rs2)

/-- `Geometry.rename` (src/geometry.py lines 912-994) with no exceptions:
bodies, regions and transformations take `newName` plus a 2-digit
zero-padded index, bins and scorings a 3-digit one; region definitions,
scoring definitions and all transform links are re-pointed. -/
def renameGeo (g : Geometry) (newName : String) : Except String Geometry :=
  let oldBodyNames := g.bods.map Body.name
  let newBodyNames := (List.range g.bods.length).map (fun i => nameFmt newName 2 (i + 1))
  let oldRegNames := g.regs.map Region.name
  let newRegNames := (List.range g.regs.length).map (fun i => nameFmt newName 2 (i + 1))
  let oldTrasNames := g.tras.map Transformation.name
  let newTrasNames := (List.range g.tras.length).map (fun i => nameFmt newName 2 (i + 1))
  let bods1 := g.bods.enum.map (fun p => { p.2 with name := nameFmt newName 2 (p.1 + 1) })
  let regs1 := g.regs.enum.map (fun p =>
    let r1 := { p.2 with name := nameFmt newName 2 (p.1 + 1) }
    let r2 := if r1.isLattice then r1.assignLat (nameFmt newName 2 (p.1 + 1)) else r1
    { r2 with definition := replaceSeq r2.definition (oldBodyNames.zip newBodyNames) })
  let tras1 := g.tras.enum.map (fun p => { p.2 with name := nameFmt newName 2 (p.1 + 1) })
  match renameBins oldTrasNames newTrasNames newName g.bins 0 with
  | .error e => .error e
  | .ok bins1 =>
    let scos1 := g.scos.enum.map (fun p =>
      let s1 :=
        match p.2 with
        | .usryield n d => Sco.usryield n (replaceSeq d (oldRegNames.zip newRegNames))
        | .usrbdx n d => Sco.usrbdx n (replaceSeq d (oldRegNames.zip newRegNames))
        | .usrtrack n d => Sco.usrtrack n (replaceSeq d (oldRegNames.zip newRegNames))
        | .usrcoll n d => Sco.usrcoll n (replaceSeq d (oldRegNames.zip newRegNames))
      s1.rename (nameFmt newName 3 (p.1 + 1)))
    match renameBodLinks oldTrasNames newTrasNames bods1 with
    | .error e => .error e
    | .ok bods2 =>
      match renameRegLinks oldTrasNames newTrasNames regs1 with
      | .error e => .error e
      | .ok regs2 =>
        .ok { g with bods := bods2, regs := regs2, tras := tras1,
                     bins := bins1, scos := scos1 }

/-- `Geometry.headMe` (src/geometry.py lines 124-137): attach a head comment
to the first body, region, transformation and bin.  Modelled from the spec
as regards `HighLightComment` (FLUKA.py, not under src/): the decoration of
the comment text is irrelevant here and the raw string is attached. -/
def geoHeadMe (g : Geometry) (s : String) : Geometry :=
  { g with
    bods := match g.bods with
      | [] => []
      | b :: bs => { b with comment := s :: b.comment } :: bs,
    regs := match g.regs with
      | [] => []
      | r :: rs => { r with comment := s :: r.comment } :: rs,
    tras := match g.tras with
      | [] => []
      | t :: ts => { t with comment := s :: t.comment } :: ts,
    bins := match g.bins with
      | [] => []
      | u :: us => { u with comment := s :: u.comment } :: us }

/-- Modelled from the spec: one grid placement (the grid module is not under
src/): a 3-D point plus either an angle/axis list or a rotation matrix, as
consumed by `BuildGriddedGeo` through `myLoc.ret("POINT"/"ANGLE"/"AXIS"/
"MATRIX")`. -/
structure GridLoc where
  point : V3
  angles : List ℚ
  axes : List Nat
  matrix : Option RotMatM
deriving DecidableEq, Repr

def defaultLoc : GridLoc := ⟨V3.zero, [], [], none⟩

/-- `protoSeen` association list, initialised to -1 per prototype key
(src/geometry.py line 1437). -/
def protoSeenInit (protoGeos : List (String × Geometry)) : List (String × Int) :=
  protoGeos.map (fun p => (p.1, -1))

def assocGeo (l : List (String × Geometry)) (k : String) : Option Geometry :=
  (l.find? (fun p => p.1 == k)).map (fun p => p.2)

def assocSeen (l : List (String × Int)) (k : String) : Int :=
  ((l.find? (fun p => p.1 == k)).map (fun p => p.2)).getD (-1)

def assocSetSeen (l : List (String × Int)) (k : String) (v : Int) : List (String × Int) :=
  l.map (fun p => if p.1 == k then (p.1, v) else p)

/-- One grid cell of `BuildGriddedGeo` (src/geometry.py lines 1439-1494):
clone the prototype (full clone on first use, lattice stand-in afterwards in
lattice mode), move the clone, flag the containment regions, rename, attach
the grid comment.  Note that the matrix branch fetches the *current*
location as `protoLoc` (`iEl=iLoc`, line 1472), where the angle/axis branch
fetches the first occurrence (`iEl=protoSeen[...]`, line 1459). -/
def buildCell (grid : List GridLoc) (protoGeos : List (String × Geometry))
    (osRegNames : List String) (lLattice lGeoDirs : Bool)
    (protoSeen : List (String × Int)) (iLoc : Nat) (myLoc : GridLoc)
    (protoName : String) : Except String (Geometry × List (String × Int)) :=
  match assocGeo protoGeos protoName with
  | none => .error "unknown prototype"
  | some protoGeo =>
    let seen0 := assocSeen protoSeen protoName
    let cloned :=
      if !lLattice || seen0 == -1 then
        (actualCopy protoGeo true,
         if lLattice then assocSetSeen protoSeen protoName (Int.ofNat iLoc) else protoSeen,
         if lLattice then Int.ofNat iLoc else seen0)
      else
        (latticeCopy protoGeo true "LATREG" "LATREG" "VACUUM", protoSeen, seen0)
    let geo0 := cloned.1
    let seenNow := cloned.2.2
    let moved :=
      if !myLoc.angles.isEmpty then
        match
          (if lLattice && Int.ofNat iLoc ≠ seenNow then
            let protoLoc := grid.getD seenNow.toNat defaultLoc
            match solidTrasform geo0 (some (negV protoLoc.point)) .noRot lGeoDirs true
                false "ToFinPos" none with
            | .error e => Except.error e
            | .ok gA =>
              solidTrasform gA none
                (.byAngles (protoLoc.angles.reverse.map (fun a => -a)) protoLoc.axes.reverse)
                lGeoDirs true false "ToFinPos" none
          else .ok geo0) with
        | .error e => Except.error e
        | .ok gB =>
          solidTrasform gB (some myLoc.point) (.byAngles myLoc.angles myLoc.axes)
            lGeoDirs false false "ToFinPos" none
      else
        match
          (if lLattice && Int.ofNat iLoc ≠ seenNow then
            let protoLoc := grid.getD iLoc defaultLoc
            match solidTrasform geo0 (some (negV protoLoc.point)) .noRot lGeoDirs false
                false "ToFinPos" none with
            | .error e => Except.error e
            | .ok gA =>
              match protoLoc.matrix with
              | none => Except.error "AttributeError: NoneType has no attribute inv"
              | some m =>
                solidTrasform gA none (.byMat m.inv) lGeoDirs true false "ToFinPos" none
          else .ok geo0) with
        | .error e => Except.error e
        | .ok gB =>
          let rotC := match myLoc.matrix with
            | some m => RotArg.byMat m
            | none => RotArg.noRot
          solidTrasform gB (some myLoc.point) rotC lGeoDirs false false "ToFinPos" none
    match moved with
    | .error e => .error e
    | .ok geo1 =>
      let flagged :=
        if !lLattice || Int.ofNat iLoc == seenNow then
          flagRegs geo1 osRegNames (-1) myLoc.point
        else flagRegs geo1 ["LATREG"] (-1) myLoc.point
      match flagged with
      | .error e => .error e
      | .ok geo2 =>
        match renameGeo geo2 ("GR" ++ String.mk (padNat 3 iLoc)) with
        | .error e => .error e
        | .ok geo3 =>
          .ok (geoHeadMe geo3 ("GRID cell prototype: " ++ protoName), cloned.2.1)

/-- The grid-cell loop of `BuildGriddedGeo`. -/
def buildAllAux (grid : List GridLoc) (protoGeos : List (String × Geometry))
    (osRegNames : List String) (lLattice lGeoDirs : Bool) :
    Nat → List (String × Int) → List (GridLoc × String) → Except String (List Geometry)
  | _, _, [] => .ok []
  | iLoc, seen, (loc, pn) :: rest =>
    match buildCell grid protoGeos osRegNames lLattice lGeoDirs seen iLoc loc pn with
    | .error e => .error e
    | .ok (geo, seen2) =>
      match buildAllAux grid protoGeos osRegNames lLattice lGeoDirs (iLoc + 1) seen2 rest with
      | .error e => .error e
      | .ok gs => .ok (geo :: gs)

/-- `Geometry.BuildGriddedGeo` (src/geometry.py lines 1415-1497), with
scoring carried over at every location (the default `lTrigScoring=True`). -/
def buildGriddedGeo (grid : List GridLoc) (protoList : List String)
    (protoGeos : List (String × Geometry)) (osRegNames : List String)
    (lLattice lGeoDirs : Bool) : Except String (List Geometry) :=
  buildAllAux grid protoGeos osRegNames lLattice lGeoDirs 0 (protoSeenInit protoGeos)
    (grid.zip protoList)

/-- Decidable equality for `Except` results, used to evaluate the embedded
fallible operations on concrete inputs. -/
instance instDecEqExcept {ε α : Type} [DecidableEq ε] [DecidableEq α] :
    DecidableEq (Except ε α) := fun a b =>
  match a, b with
  | .error e, .error f =>
    if h : e = f then .isTrue (by rw [h]) else .isFalse (by intro hc; cases hc; exact h rfl)
  | .error _, .ok _ => .isFalse (by intro hc; cases hc)
  | .ok _, .error _ => .isFalse (by intro hc; cases hc)
  | .ok x, .ok y =>
    if h : x = y then .isTrue (by rw [h]) else .isFalse (by intro hc; cases hc; exact h rfl)

/-! ### Concrete instances used to evaluate the definitions -/

/-- A region with only a containment tag set. -/
def mkContReg (nm : String) (rc : Int) : Region := { Region.default nm with rCont := rc }

/-- One container region. -/
def hive1 : Geometry := { emptyGeometry with regs := [mkContReg "HR1" 1] }

/-- Three container regions. -/
def hive3 : Geometry :=
  { emptyGeometry with regs := [mkContReg "HR1" 1, mkContReg "HR2" 1, mkContReg "HR3" 1] }

/-- One contained region. -/
def cined1 : Geometry := { emptyGeometry with regs := [mkContReg "CR1" (-1)] }

/-- Three contained regions. -/
def cined3 : Geometry :=
  { emptyGeometry with regs := [mkContReg "CR1" (-1), mkContReg "CR2" (-1), mkContReg "CR3" (-1)] }

/-- A scoring collection holding one USRBDX card (so not of kind USRYIELD,
USRTRACK or USRCOLL, and its USRBDX mate below). -/
def gScoMix : Geometry :=
  { emptyGeometry with scos := [Sco.usrbdx "BDX1" [], Sco.usryield "YLD1" []] }

/-- A geometry holding a single unlinked USRBIN. -/
def gBinOnly : Geometry :=
  { emptyGeometry with bins := [⟨"BIN1", [], "", V3.zero⟩] }

/-- Bodies `B1`, `B2` and region `R1` referencing both (the spec §8 transform
scenario), with no lattice regions and no scoring cards. -/
def gB1B2R1 : Geometry :=
  { emptyGeometry with
      bods := [⟨"B1", [], V3.zero, none⟩, ⟨"B2", [], V3.zero, none⟩],
      regs := [{ Region.default "R1" with definition := "+B1 -B2".toList }],
      title := "test" }

/-- A small query-engine population: two bodies, a transformation, a bin. -/
def gQuery : Geometry :=
  { emptyGeometry with
      bods := [⟨"B1", [], V3.zero, none⟩, ⟨"B2", [], V3.zero, some "TR1"⟩],
      regs := [{ Region.default "R1" with latName := some "LAT1", trasfName := some "TR1" }],
      tras := [⟨1, "TR1", [], []⟩],
      bins := [⟨"BIN1", [], "TR1", V3.zero⟩],
      scos := [Sco.usryield "YLD1" []] }

/-- The prototype geometry of the lattice-grid scenario: one plain region. -/
def protoGeo0 : Geometry :=
  { emptyGeometry with
      regs := [{ Region.default "PROTO" with definition := ['b'] }],
      title := "proto" }

/-- Two matrix placements of the same prototype: points `(1,0,0)` and
`(6,0,0)` (second offset `(5,0,0)` from the first), identity matrices, no
angle/axis data. -/
def gridLocsM : List GridLoc :=
  [⟨⟨1, 0, 0⟩, [], [], some identM⟩, ⟨⟨6, 0, 0⟩, [], [], some identM⟩]

/-- The same two placements given as (zero) angle/axis data instead. -/
def gridLocsA : List GridLoc :=
  [⟨⟨1, 0, 0⟩, [0], [3], none⟩, ⟨⟨6, 0, 0⟩, [0], [3], none⟩]

/-- A directive sequence exercising define/if/elif/else/end. -/
def ppLines0 : List String :=
  ["#define A", "#if A", "L1", "#elif B", "L2", "#else", "L3", "#end", "L4"]

/-- Two single-zone regions used to evaluate `Region.merge`. -/
def regMergeA : Region :=
  { Region.default "RA" with definition := "+b1 -b2 | +b3".toList, neigh := 5 }

def regMergeB : Region :=
  { Region.default "RB" with definition := "+c1 | +c2".toList, neigh := 7 }

/-- A surviving region with a multi-line stored definition carrying a comment
line between its two zones, as the parser and `merge` itself produce. -/
def regMergeC : Region :=
  { Region.default "RC" with definition := "+a\n* cmt\n | +b".toList, neigh := 3 }

def regMergeD : Region :=
  { Region.default "RD" with definition := "+w".toList, neigh := 2 }

/-! ## Helper lemmas -/

theorem mapConstRep {α β : Type} (l : List α) (b : β) :
    l.map (fun _ => b) = List.replicate l.length b := by
  induction l with
  | nil => rfl
  | cons x xs ih => simp [List.replicate, ih]

theorem filterLengthLt {α : Type} (p : α → Bool) (l : List α)
    (h : ∃ x ∈ l, p x = false) : (l.filter p).length < l.length := by
  induction l with
  | nil => rcases h with ⟨x, hx, _⟩; cases hx
  | cons y ys ih =>
    rcases h with ⟨x, hx, hpx⟩
    rcases List.mem_cons.mp hx with rfl | hmem
    · have hle : (ys.filter p).length ≤ ys.length := List.length_filter_le p ys
      simp only [List.filter_cons, hpx]
      simpa using Nat.lt_succ_of_le hle
    · by_cases hy : p y = true
      · have hlt := ih ⟨x, hmem, hpx⟩
        simp only [List.filter_cons, hy]
        simpa using Nat.succ_lt_succ hlt
      · have hy' : p y = false := by simpa using hy
        have hlt := ih ⟨x, hmem, hpx⟩
        simp only [List.filter_cons, hy']
        simpa using Nat.lt_succ_of_lt hlt

theorem loopFindP_none {α : Type} (p : α → Bool) (xs : List α) (i : Nat)
    (h : ∀ x ∈ xs, p x = false) : loopFindP p xs i = none := by
  induction xs generalizing i with
  | nil => rfl
  | cons y ys ih =>
    simp only [loopFindP, h y (List.mem_cons_self y ys)]
    exact ih (i + 1) (fun x hx => h x (List.mem_cons_of_mem y hx))

theorem loopFindP_some_spec {α : Type} (p : α → Bool) (xs : List α) (i : Nat)
    (x : α) (j : Nat) (h : loopFindP p xs i = some (x, j)) :
    p x = true ∧ i ≤ j ∧ xs.get? (j - i) = some x := by
  induction xs generalizing i with
  | nil => cases h
  | cons y ys ih =>
    by_cases hy : p y = true
    · simp only [loopFindP, hy, if_true, Option.some.injEq, Prod.mk.injEq] at h
      obtain ⟨rfl, rfl⟩ := h
      exact ⟨hy, Nat.le_refl _, by simp⟩
    · simp only [loopFindP, hy, if_false, Bool.false_eq_true] at h
      obtain ⟨hp, hij, hget⟩ := ih (i + 1) h
      refine ⟨hp, Nat.le_of_succ_le hij, ?_⟩
      have hji : j - i = (j - (i + 1)) + 1 := by omega
      rw [hji]
      simpa using hget

theorem loopFindP_exists {α : Type} (p : α → Bool) (xs : List α) (i : Nat)
    (h : ∃ x ∈ xs, p x = true) : ∃ x j, loopFindP p xs i = some (x, j) := by
  induction xs generalizing i with
  | nil => rcases h with ⟨x, hx, _⟩; cases hx
  | cons y ys ih =>
    by_cases hy : p y = true
    · exact ⟨y, i, by simp [loopFindP, hy]⟩
    · rcases h with ⟨x, hx, hpx⟩
      rcases List.mem_cons.mp hx with rfl | hmem
      · exact absurd hpx hy
      · obtain ⟨z, j, hj⟩ := ih (i + 1) ⟨x, hmem, hpx⟩
        exact ⟨z, j, by simp [loopFindP, hy, hj]⟩

theorem loopFindP_append_single {α : Type} (p : α → Bool) (l : List α) (y : α) (i : Nat)
    (hl : ∀ x ∈ l, p x = false) (hy : p y = true) :
    loopFindP p (l ++ [y]) i = some (y, i + l.length) := by
  induction l generalizing i with
  | nil => simp [loopFindP, hy]
  | cons z zs ih =>
    simp only [List.cons_append, loopFindP, hl z (List.mem_cons_self z zs), if_false,
      Bool.false_eq_true, List.append_eq]
    rw [ih (i + 1) (fun x hx => hl x (List.mem_cons_of_mem z hx))]
    have h2 : i + 1 + zs.length = i + (zs.length + 1) := by omega
    simp [List.length_cons, h2]

theorem updateFirstBy_append_single {α : Type} (p : α → Bool) (f : α → α)
    (l : List α) (y : α) (hl : ∀ x ∈ l, p x = false) (hy : p y = true) :
    updateFirstBy p f (l ++ [y]) = some (l ++ [f y]) := by
  induction l with
  | nil => simp [updateFirstBy, hy]
  | cons z zs ih =>
    simp only [List.cons_append, updateFirstBy, hl z (List.mem_cons_self z zs), if_false,
      Bool.false_eq_true, List.append_eq]
    rw [ih (fun x hx => hl x (List.mem_cons_of_mem z hx))]
    rfl

/-! ## C9 -/

/-- C9: after `Region.merge` the surviving region's containment state is
fully reset: containment tag 0, center `(0,0,0)`, max characteristic length
`0.0` (src/region.py line 138 ends the merge with `initCont()`). -/
theorem merge_resets_containment (r n : Region) (sp : List Char) :
    (r.mergeSp n sp).rCont = 0 ∧ (r.mergeSp n sp).rCent = ⟨0, 0, 0⟩ ∧
      (r.mergeSp n sp).rMaxLen = 0 :=
  ⟨rfl, rfl, rfl⟩

/-! ## C10 -/

theorem retScoKind_all_mismatch (p : Sco → Bool) (g : Geometry)
    (h : ∃ s ∈ g.scos, p s = false) :
    ∃ ns ks, retScoKind p g "ALL" = RetR.allOf ns ks ∧ ns.length < ks.length := by
  refine ⟨(g.scos.filter p).map Sco.name, (List.range g.scos.length).map Int.ofNat, ?_, ?_⟩
  · rfl
  · simp only [List.length_map, List.length_range]
    exact filterLengthLt p g.scos h

/-- C10: the "ALL" lookup of a scoring subkind filters the name list to that
subkind but enumerates every index of the whole scoring collection
(src/geometry.py lines 276-315), so with at least one card of a different
subkind the two returned lists have different lengths (names shorter), and
the indices cannot correspond to the names. -/
theorem scoSubkindAll_mismatch (g : Geometry) :
    ((∃ s ∈ g.scos, s.isUsryield = false) →
      ∃ ns ks, retUsryield g "ALL" = RetR.allOf ns ks ∧ ns.length < ks.length) ∧
    ((∃ s ∈ g.scos, s.isUsrbdx = false) →
      ∃ ns ks, retUsrbdx g "ALL" = RetR.allOf ns ks ∧ ns.length < ks.length) ∧
    ((∃ s ∈ g.scos, s.isUsrtrack = false) →
      ∃ ns ks, retUsrtrack g "ALL" = RetR.allOf ns ks ∧ ns.length < ks.length) ∧
    ((∃ s ∈ g.scos, s.isUsrcoll = false) →
      ∃ ns ks, retUsrcoll g "ALL" = RetR.allOf ns ks ∧ ns.length < ks.length) :=
  ⟨retScoKind_all_mismatch Sco.isUsryield g, retScoKind_all_mismatch Sco.isUsrbdx g,
   retScoKind_all_mismatch Sco.isUsrtrack g, retScoKind_all_mismatch Sco.isUsrcoll g⟩

/-- C10 witness: a scoring collection with a USRBDX and a USRYIELD card has
mismatching name/index lists for the USRYIELD-"ALL" lookup. -/
theorem scoSubkindAll_mismatch_witness :
    ∃ ns ks, retUsryield gScoMix "ALL" = RetR.allOf ns ks ∧ ns.length < ks.length :=
  (scoSubkindAll_mismatch gScoMix).1 ⟨Sco.usrbdx "BDX1" [], by decide, by decide⟩

/-! ## C4 -/

/-- C4 counterexample: with exactly one container region and exactly one
contained region, `MapContRegs` takes the `len(iRhgs)>=1 and len(iRggs)==1`
branch and returns map type "oneGrid" (src/geometry.py line 1941-1943), not
"oneHive" as the claim's `m==1` clause asserts. -/
theorem mapContRegs_one_one_oneGrid :
    (mapContRegs hive1 cined1).map (fun r => r.2) = Except.ok "oneGrid" ∧
      "oneGrid" ≠ "oneHive" := by
  constructor
  · rfl
  · decide

/-- C4 (amended): `MapContRegs` is fatal when both sides have more than one
flagged region; when exactly one region is contained and at least one
contains, it returns "oneGrid" with one pair per container region, all
sharing the single contained index; when exactly one region contains and the
contained count is not one, it returns "oneHive" with one pair per contained
region, all sharing the single container index. -/
theorem mapContRegs_cardinality (ct cd : Geometry) :
    (1 < (idxWhere (fun r => r.rCont == 1) ct.regs).length →
      1 < (idxWhere (fun r => r.rCont == -1) cd.regs).length →
      ∃ e, mapContRegs ct cd = .error e) ∧
    (∀ j, idxWhere (fun r => r.rCont == -1) cd.regs = [j] →
      1 ≤ (idxWhere (fun r => r.rCont == 1) ct.regs).length →
      mapContRegs ct cd = .ok
        (⟨idxWhere (fun r => r.rCont == 1) ct.regs,
          List.replicate (idxWhere (fun r => r.rCont == 1) ct.regs).length 0,
          List.replicate (idxWhere (fun r => r.rCont == 1) ct.regs).length j,
          List.replicate (idxWhere (fun r => r.rCont == 1) ct.regs).length 0⟩, "oneGrid")) ∧
    (∀ i, idxWhere (fun r => r.rCont == 1) ct.regs = [i] →
      (idxWhere (fun r => r.rCont == -1) cd.regs).length ≠ 1 →
      mapContRegs ct cd = .ok
        (⟨List.replicate (idxWhere (fun r => r.rCont == -1) cd.regs).length i,
          List.replicate (idxWhere (fun r => r.rCont == -1) cd.regs).length 0,
          idxWhere (fun r => r.rCont == -1) cd.regs,
          List.replicate (idxWhere (fun r => r.rCont == -1) cd.regs).length 0⟩, "oneHive")) := by
  refine ⟨?_, ?_, ?_⟩
  · intro h1 h2
    refine ⟨"Cannot merge many contained regions into many containing regions", ?_⟩
    unfold mapContRegs
    simp only [decide_eq_true_eq]
    rw [if_pos]
    simp only [Bool.and_eq_true, decide_eq_true_eq]
    exact ⟨h1, h2⟩
  · intro j hj hm
    unfold mapContRegs
    rw [hj]
    rw [if_neg (by simp), if_pos (by simpa using hm)]
    simp [mapConstRep]
  · intro i hi hn
    unfold mapContRegs
    rw [hi]
    have hcond1 : ¬((1 < ([i] : List Nat).length) ∧
        1 < (idxWhere (fun r => r.rCont == -1) cd.regs).length) := by
      simp
    rw [if_neg (by simpa using hcond1)]
    rw [if_neg (by simpa using hn)]
    rcases hcase : idxWhere (fun r => r.rCont == -1) cd.regs with _ | ⟨k, ks⟩
    · simp [hcase]
    · rw [hcase]
      simp [mapConstRep, List.replicate_succ]

/-- C4 witness: three containers vs. one contained gives "oneGrid" with three
pairs sharing the contained index; one vs. three gives "oneHive" with three
pairs sharing the container index; three vs. three is fatal. -/
theorem mapContRegs_cardinality_witness :
    (∃ e, mapContRegs hive3 cined3 = .error e) ∧
    mapContRegs hive3 cined1 = .ok
      (⟨idxWhere (fun r => r.rCont == 1) hive3.regs,
        List.replicate (idxWhere (fun r => r.rCont == 1) hive3.regs).length 0,
        List.replicate (idxWhere (fun r => r.rCont == 1) hive3.regs).length 0,
        List.replicate (idxWhere (fun r => r.rCont == 1) hive3.regs).length 0⟩, "oneGrid") ∧
    mapContRegs hive1 cined3 = .ok
      (⟨List.replicate (idxWhere (fun r => r.rCont == -1) cined3.regs).length 0,
        List.replicate (idxWhere (fun r => r.rCont == -1) cined3.regs).length 0,
        idxWhere (fun r => r.rCont == -1) cined3.regs,
        List.replicate (idxWhere (fun r => r.rCont == -1) cined3.regs).length 0⟩, "oneHive") :=
  ⟨(mapContRegs_cardinality hive3 cined3).1 (by decide) (by decide),
   (mapContRegs_cardinality hive3 cined1).2.1 0 (by decide) (by decide),
   (mapContRegs_cardinality hive1 cined3).2.2 0 (by decide) (by decide)⟩

/-! ## C5 -/

theorem retLoop_none {α : Type} (coll : List α) (f : α → String) (v : String)
    (h : ∀ x ∈ coll, f x ≠ v) : loopFindP (fun x => f x == v) coll 0 = none :=
  loopFindP_none _ coll 0 (fun x hx => by simpa using h x hx)

theorem retLoop_found {α : Type} (coll : List α) (f : α → String) (v : String)
    (h : ∃ x ∈ coll, f x = v) :
    ∃ x j, loopFindP (fun x => f x == v) coll 0 = some (x, j) ∧
      coll.get? j = some x ∧ f x = v := by
  obtain ⟨x, j, hx⟩ := loopFindP_exists (fun x => f x == v) coll 0
    (by rcases h with ⟨x, hx, hv⟩; exact ⟨x, hx, by simpa using hv⟩)
  obtain ⟨hp, _, hget⟩ := loopFindP_some_spec _ coll 0 x j hx
  exact ⟨x, j, hx, by simpa using hget, by simpa using hp⟩

/-- C5 counterexample: the derived transform-link lookup with a never-inserted
body name exits fatally (src/geometry.py lines 201-203) rather than returning
the not-found sentinel `(None, -1)`. -/
theorem ret_derived_missing_fatal :
    retTransfLinkedToBodyOne emptyGeometry "FOO" = .error "cannot find body named" ∧
      retTransfLinkedToBodyOne emptyGeometry "FOO" ≠ .ok (none, -1) := by
  have h1 : retTransfLinkedToBodyOne emptyGeometry "FOO" =
      .error "cannot find body named" := rfl
  exact ⟨h1, fun hc => Except.noConfusion (h1.symm.trans hc)⟩

/-- C5 (amended): for every geometry and singular (non-"ALL") lookup over a
direct entity collection — bodies, lattices, regions, transformations, bins,
region-based scorings and the four scoring subkinds — `ret` returns the
not-found sentinel `(None, -1)` when no entity matches the name and the first
matching entity with its collection index when one does; the derived relation
selectors (transform linked to a body / lattice region / mesh), however, are
fatal on a never-inserted target name. -/
theorem ret_singular_sentinel (g : Geometry) (v : String) (hv : pyUpper v ≠ "ALL") :
    ((∀ b ∈ g.bods, b.name ≠ v) → retBod g v = .notFound) ∧
    ((∃ b ∈ g.bods, b.name = v) →
      ∃ b k, retBod g v = .found b (Int.ofNat k) ∧ g.bods.get? k = some b ∧ b.name = v) ∧
    ((∀ r ∈ g.regs, r.echoLatticeName ≠ v) → retLat g v = .notFound) ∧
    ((∃ r ∈ g.regs, r.echoLatticeName = v) →
      ∃ r k, retLat g v = .found r (Int.ofNat k) ∧ g.regs.get? k = some r ∧
        r.echoLatticeName = v) ∧
    ((∀ r ∈ g.regs, r.name ≠ v) → retReg g v = .notFound) ∧
    ((∃ r ∈ g.regs, r.name = v) →
      ∃ r k, retReg g v = .found r (Int.ofNat k) ∧ g.regs.get? k = some r ∧ r.name = v) ∧
    ((∀ t ∈ g.tras, t.name ≠ v) → retTransf g v = .notFound) ∧
    ((∃ t ∈ g.tras, t.name = v) →
      ∃ t k, retTransf g v = .found t (Int.ofNat k) ∧ g.tras.get? k = some t ∧ t.name = v) ∧
    ((∀ u ∈ g.bins, u.name ≠ v) → retBin g v = .notFound) ∧
    ((∃ u ∈ g.bins, u.name = v) →
      ∃ u k, retBin g v = .found u (Int.ofNat k) ∧ g.bins.get? k = some u ∧ u.name = v) ∧
    ((∀ s ∈ g.scos, s.name ≠ v) → retSco g v = .notFound) ∧
    ((∃ s ∈ g.scos, s.name = v) →
      ∃ s k, retSco g v = .found s (Int.ofNat k) ∧ g.scos.get? k = some s ∧ s.name = v) ∧
    ((∀ s ∈ g.scos, s.name ≠ v) →
      retUsryield g v = .notFound ∧ retUsrbdx g v = .notFound ∧
        retUsrtrack g v = .notFound ∧ retUsrcoll g v = .notFound) ∧
    ((∀ b ∈ g.bods, b.name ≠ v) →
      retTransfLinkedToBodyOne g v = .error "cannot find body named") ∧
    ((∀ r ∈ g.regs, r.echoLatticeName ≠ v) →
      retTransfLinkedToLatOne g v = .error "cannot find body named") ∧
    ((∀ u ∈ g.bins, u.name ≠ v) →
      retTransfLinkedToUsrbinOne g v = .error "cannot find USRBIN named") := by
  refine ⟨?_, ?_, ?_, ?_, ?_, ?_, ?_, ?_, ?_, ?_, ?_, ?_, ?_, ?_, ?_, ?_⟩
  · intro h
    unfold retBod
    rw [if_neg hv, retLoop_none g.bods Body.name v h]
  · intro h
    obtain ⟨x, j, hx, hget, hname⟩ := retLoop_found g.bods Body.name v h
    exact ⟨x, j, by unfold retBod; rw [if_neg hv, hx], hget, hname⟩
  · intro h
    unfold retLat
    rw [if_neg hv, retLoop_none g.regs Region.echoLatticeName v h]
  · intro h
    obtain ⟨x, j, hx, hget, hname⟩ := retLoop_found g.regs Region.echoLatticeName v h
    exact ⟨x, j, by unfold retLat; rw [if_neg hv, hx], hget, hname⟩
  · intro h
    unfold retReg
    rw [if_neg hv, retLoop_none g.regs Region.name v h]
  · intro h
    obtain ⟨x, j, hx, hget, hname⟩ := retLoop_found g.regs Region.name v h
    exact ⟨x, j, by unfold retReg; rw [if_neg hv, hx], hget, hname⟩
  · intro h
    unfold retTransf
    rw [if_neg hv, retLoop_none g.tras Transformation.name v h]
  · intro h
    obtain ⟨x, j, hx, hget, hname⟩ := retLoop_found g.tras Transformation.name v h
    exact ⟨x, j, by unfold retTransf; rw [if_neg hv, hx], hget, hname⟩
  · intro h
    unfold retBin
    rw [if_neg hv, retLoop_none g.bins Usrbin.name v h]
  · intro h
    obtain ⟨x, j, hx, hget, hname⟩ := retLoop_found g.bins Usrbin.name v h
    exact ⟨x, j, by unfold retBin; rw [if_neg hv, hx], hget, hname⟩
  · intro h
    unfold retSco
    rw [if_neg hv, retLoop_none g.scos Sco.name v h]
  · intro h
    obtain ⟨x, j, hx, hget, hname⟩ := retLoop_found g.scos Sco.name v h
    exact ⟨x, j, by unfold retSco; rw [if_neg hv, hx], hget, hname⟩
  · intro h
    have hnone : ∀ p : Sco → Bool,
        loopFindP (fun s => s.name == v && p s) g.scos 0 = none := by
      intro p
      refine loopFindP_none _ g.scos 0 (fun s hs => ?_)
      have : (s.name == v) = false := by simpa using h s hs
      simp [this]
    refine ⟨?_, ?_, ?_, ?_⟩
    · unfold retUsryield retScoKind
      rw [if_neg hv, hnone]
    · unfold retUsrbdx retScoKind
      rw [if_neg hv, hnone]
    · unfold retUsrtrack retScoKind
      rw [if_neg hv, hnone]
    · unfold retUsrcoll retScoKind
      rw [if_neg hv, hnone]
  · intro h
    unfold retTransfLinkedToBodyOne
    rw [retLoop_none g.bods Body.name v h]
  · intro h
    unfold retTransfLinkedToLatOne
    rw [retLoop_none g.regs Region.echoLatticeName v h]
  · intro h
    unfold retTransfLinkedToUsrbinOne
    rw [retLoop_none g.bins Usrbin.name v h]

/-- C5 witness: on a populated geometry, a never-inserted name gives the
sentinel for the direct kinds e.g. bodies and transformations, is fatal for
the derived selector, and an inserted body name is found with its index. -/
theorem ret_singular_sentinel_witness :
    retBod gQuery "NOPE" = RetR.notFound ∧
    retTransf gQuery "NOPE" = RetR.notFound ∧
    retTransfLinkedToBodyOne gQuery "NOPE" = .error "cannot find body named" ∧
    (∃ b k, retBod gQuery "B2" = .found b (Int.ofNat k) ∧
      gQuery.bods.get? k = some b ∧ b.name = "B2") :=
  ⟨(ret_singular_sentinel gQuery "NOPE" (by decide)).1 (by decide),
   (ret_singular_sentinel gQuery "NOPE" (by decide)).2.2.2.2.2.2.1 (by decide),
   (ret_singular_sentinel gQuery "NOPE" (by decide)).2.2.2.2.2.2.2.2.2.2.2.2.2.1 (by decide),
   (ret_singular_sentinel gQuery "B2" (by decide)).2.1
     ⟨⟨"B2", [], V3.zero, some "TR1"⟩, by decide, rfl⟩⟩

/-! ## C7 -/

theorem mapSelf {α : Type} (l : List α) (f : α → α) (h : ∀ x ∈ l, f x = x) :
    l.map f = l := by
  induction l with
  | nil => rfl
  | cons x xs ih =>
    simp only [List.map_cons, h x (List.mem_cons_self x xs)]
    rw [ih (fun y hy => h y (List.mem_cons_of_mem x hy))]

theorem addV_zero (v : V3) : addV v ⟨0, 0, 0⟩ = v := by
  cases v
  simp [addV]

theorem negV_zero : negV ⟨0, 0, 0⟩ = (⟨0, 0, 0⟩ : V3) := by
  simp [negV]

theorem latLinkNamesAux_no_lattice (regs : List Region) (acc : List String)
    (h : ∀ r ∈ regs, r.isLattice = false) : latLinkNamesAux acc regs = acc := by
  induction regs generalizing acc with
  | nil => rfl
  | cons r rs ih =>
    simp only [latLinkNamesAux, h r (List.mem_cons_self r rs), Bool.false_and, Bool.false_eq_true,
      if_false]
    exact ih acc (fun x hx => h x (List.mem_cons_of_mem r hx))

theorem latticeSec_no_lattice (g : Geometry) (steps stepsInv : List RotDefi)
    (w : Bool) (nm : String) (c : Option String)
    (h : ∀ r ∈ g.regs, r.isLattice = false) :
    latticeSec g steps stepsInv w nm c = .ok g := by
  have hT : latLinkNamesAux [] g.regs = [] := latLinkNamesAux_no_lattice g.regs [] h
  have hC : g.regs.any (fun r => r.isLattice && !r.isLinkedToTransform) = false := by
    simp only [List.any_eq_false]
    intro r hr
    simp [h r hr]
  have hR : g.regs.map (fun r =>
      if r.isLattice && !r.isLinkedToTransform then r.assignTrasf (nm ++ "_lat") else r)
      = g.regs := mapSelf _ _ (fun r hr => by simp [h r hr])
  unfold latticeSec
  simp only [hT, hC, hR, Bool.false_eq_true, if_false, addToNamed]
  cases c with
  | none => rfl
  | some s => rfl

theorem binsSec_no_bins (g : Geometry) (steps : List RotDefi) (dd : Option V3)
    (lT : Bool) (nm : String) (c : Option String) (h : g.bins = []) :
    binsSec g steps dd lT nm c = .ok g := by
  unfold binsSec
  rw [h]
  simp only [List.any_nil, List.map_nil, Bool.false_eq_true, if_false]
  cases c with
  | none => show Except.ok { g with bins := [] } = Except.ok g
            rw [show ({ g with bins := [] } : Geometry) = g by rw [← h]]
  | some s => show Except.ok { g with bins := [] } = Except.ok g
              rw [show ({ g with bins := [] } : Geometry) = g by rw [← h]]

/-- C7 counterexample: on a geometry holding a single unlinked USRBIN, the
zero transform `dd=[0,0,0]`, `myTheta=0.0` still records a zero-translation
ROT-DEFI (the translation block appends `RotDefi(myDD=-dd)` unconditionally,
src/geometry.py line 812), so a new transformation `ToFinPos_bin` is created
and the bin becomes transform-linked: the state is not bit-identical. -/
theorem solidTrasform_zero_not_identity :
    (solidTrasform gBinOnly (some ⟨0, 0, 0⟩) (.byAngle 0 3) false false false
        "ToFinPos" none).map
      (fun g => (g.tras.length, g.bins.map Usrbin.retTransformName,
        g.tras.map Transformation.rotdefis))
      = Except.ok (1, ["ToFinPos_bin"], [[RotDefi.transl ⟨0, 0, 0⟩]]) ∧
    gBinOnly.tras.length = 0 ∧ gBinOnly.bins.map Usrbin.retTransformName = [""] := by
  refine ⟨?_, rfl, rfl⟩
  decide

/-- C7 (amended): a zero translation plus zero-degree rotation leaves the
aggregate bit-identical provided the geometry has no lattice regions and no
scoring bins; otherwise a zero-translation transform step is still recorded
(a transform entity/link is created), because the translation block appends a
ROT-DEFI step even for `dd=[0,0,0]`. -/
theorem solidTrasform_zero_identity (g : Geometry)
    (hlat : ∀ r ∈ g.regs, r.isLattice = false) (hbin : g.bins = []) :
    solidTrasform g (some ⟨0, 0, 0⟩) (.byAngle 0 3) false false false "ToFinPos" none
      = .ok g := by
  have hbods : g.bods.map (fun b => b.traslate ⟨0, 0, 0⟩) = g.bods :=
    mapSelf _ _ (fun b _ => by cases b; simp [Body.traslate, addV_zero])
  show solidTrasformSingle g (some ⟨0, 0, 0⟩) (.byAngle 0 3) false false false
      "ToFinPos" none = .ok g
  show solidRest g [] [] (some ⟨0, 0, 0⟩) false false false false "ToFinPos" none = .ok g
  unfold solidRest
  simp only [hbods, negV_zero, List.nil_append, List.isEmpty_cons, Bool.false_eq_true, if_false]
  show solidSections { g with bods := g.bods } [RotDefi.transl ⟨0, 0, 0⟩]
      [RotDefi.transl ⟨0, 0, 0⟩] (some ⟨0, 0, 0⟩) false false false false "ToFinPos" none
      = .ok g
  have hg : ({ g with bods := g.bods } : Geometry) = g := rfl
  rw [hg]
  unfold solidSections
  simp only [Bool.false_eq_true, if_false]
  rw [latticeSec_no_lattice g _ _ false "ToFinPos" none hlat]
  show binsSec g [RotDefi.transl ⟨0, 0, 0⟩] (some ⟨0, 0, 0⟩) false "ToFinPos" none = .ok g
  exact binsSec_no_bins g _ _ false "ToFinPos" none hbin

/-- C7 witness: the zero transform is the identity on the spec §8 geometry
(bodies `B1`, `B2`, region `R1`, no lattice regions, no bins). -/
theorem solidTrasform_zero_identity_witness :
    solidTrasform gB1B2R1 (some ⟨0, 0, 0⟩) (.byAngle 0 3) false false false "ToFinPos" none
      = .ok gB1B2R1 :=
  solidTrasform_zero_identity gB1B2R1 (by decide) (by decide)

/-! ## C1 -/

theorem bodLinkNamesAux_all_none (bods : List Body) (acc : List String)
    (h : ∀ b ∈ bods, b.trasfName = none) : bodLinkNamesAux acc bods = acc := by
  induction bods generalizing acc with
  | nil => rfl
  | cons b bs ih =>
    have hb := h b (List.mem_cons_self b bs)
    unfold bodLinkNamesAux
    rw [hb]
    exact ih acc (fun x hx => h x (List.mem_cons_of_mem b hx))

theorem solidSections_no_lat_no_bins (g g1 : Geometry) (steps stepsInv : List RotDefi)
    (dd : Option V3) (lT : Bool) (nm : String) (c : Option String)
    (hb : bodiesSec g steps nm c = .ok g1)
    (hlat : ∀ r ∈ g1.regs, r.isLattice = false) (hbin : g1.bins = []) :
    solidSections g steps stepsInv dd lT true false false nm c = .ok g1 := by
  unfold solidSections
  rw [if_pos rfl]
  simp only [hb]
  rw [latticeSec_no_lattice g1 steps stepsInv false nm c hlat]
  show binsSec g1 steps dd lT nm c = .ok g1
  exact binsSec_no_bins g1 steps dd lT nm c hbin

/-- C1: in geometry-directive mode, a 90-degree rotation about axis 2
followed by translation `(0,0,10)` records, on a geometry whose bodies are
not yet directive-linked (and with no lattice regions or bins), a fresh
external transform card `ToFinPos_bdy` holding exactly two steps: the
translation step `(0,0,-10)` first, then the rotation step about axis 2
whose stored azimuth is `+90`, i.e. `-90` degrees in the right-handed
convention (both signs negated as the external format contract demands). -/
theorem solidTrasform_geoDirs_card (g : Geometry)
    (hbods : g.bods ≠ []) (hunl : ∀ b ∈ g.bods, b.trasfName = none)
    (hno : ∀ t ∈ g.tras, t.name ≠ "ToFinPos_bdy")
    (hlat : ∀ r ∈ g.regs, r.isLattice = false) (hbin : g.bins = []) :
    ∃ g2, solidTrasform g (some ⟨0, 0, 10⟩) (.byAngle 90 2) true false false
        "ToFinPos" none = .ok g2 ∧
      ∃ t, loopFindP (fun t => t.name == "ToFinPos_bdy") g2.tras 0
          = some (t, g.tras.length) ∧
        t.rotdefis = [RotDefi.transl ⟨0, 0, -10⟩, RotDefi.rot 2 90] ∧
        t.rotdefis.map rhAngleOf = [0, -90] := by
  have hnobeq : ∀ t ∈ g.tras, (t.name == "ToFinPos_bdy") = false :=
    fun t ht => by simpa using hno t ht
  refine ⟨{ g with
      bods := g.bods.map (fun b =>
        if b.isLinkedToTransform then b else b.linkTransformName "ToFinPos_bdy"),
      tras := g.tras ++ [⟨Int.ofNat g.tras.length + 1, "ToFinPos_bdy", [],
        [RotDefi.transl ⟨0, 0, -10⟩, RotDefi.rot 2 90]⟩] }, ?_, ?_⟩
  · show solidTrasformSingle g (some ⟨0, 0, 10⟩) (.byAngle 90 2) true false false
      "ToFinPos" none = _
    simp only [solidTrasformSingle]
    rw [if_neg (by norm_num : ¬(90 : ℚ) = 0)]
    simp only [if_pos rfl, solidRest]
    have hneg : negV ⟨0, 0, 10⟩ = (⟨0, 0, -10⟩ : V3) := by simp [negV]
    simp only [hneg]
    show solidSections g [RotDefi.rot 2 90, RotDefi.transl ⟨0, 0, -10⟩]
        [RotDefi.rot 2 (-90), RotDefi.transl ⟨0, 0, 10⟩] (some ⟨0, 0, 10⟩)
        false true false false "ToFinPos" none = _
    have hbodies : bodiesSec g [RotDefi.rot 2 90, RotDefi.transl ⟨0, 0, -10⟩]
        "ToFinPos" none = .ok { g with
          bods := g.bods.map (fun b =>
            if b.isLinkedToTransform then b else b.linkTransformName "ToFinPos_bdy"),
          tras := g.tras ++ [⟨Int.ofNat g.tras.length + 1, "ToFinPos_bdy", [],
            [RotDefi.transl ⟨0, 0, -10⟩, RotDefi.rot 2 90]⟩] } := by
      have hT0 : bodLinkNamesAux [] g.bods = [] := bodLinkNamesAux_all_none g.bods [] hunl
      have hCr : g.bods.any (fun b => !b.isLinkedToTransform) = true := by
        rcases hb : g.bods with _ | ⟨b, bs⟩
        · exact absurd hb hbods
        · have hbmem : b ∈ g.bods := by rw [hb]; exact List.mem_cons_self b bs
          have hb2 := hunl b hbmem
          simp [Body.isLinkedToTransform, hb2]
      have hfind : loopFindP (fun t => t.name == "ToFinPos_bdy") g.tras 0 = none :=
        loopFindP_none _ g.tras 0 hnobeq
      have hupd : updateFirstBy (fun t => t.name == "ToFinPos_bdy")
          (fun t => t.addRotDefis [RotDefi.rot 2 90, RotDefi.transl ⟨0, 0, -10⟩] true)
          (g.tras ++ [⟨Int.ofNat g.tras.length + 1, "ToFinPos_bdy", [], []⟩])
          = some (g.tras ++ [⟨Int.ofNat g.tras.length + 1, "ToFinPos_bdy", [],
              [RotDefi.transl ⟨0, 0, -10⟩, RotDefi.rot 2 90]⟩]) := by
        rw [updateFirstBy_append_single _ _ g.tras _ hnobeq (by simp)]
        rfl
      unfold bodiesSec
      simp only [show ("ToFinPos" ++ "_bdy" : String) = "ToFinPos_bdy" from rfl,
        hT0, hCr, hfind, if_true, List.nil_append, addToNamed, Bool.false_eq_true, if_false]
      rw [hupd]
      rfl
    exact solidSections_no_lat_no_bins g _ _ _ _ _ _ _ hbodies
      (fun r hr => hlat r hr) hbin
  · refine ⟨⟨Int.ofNat g.tras.length + 1, "ToFinPos_bdy", [],
      [RotDefi.transl ⟨0, 0, -10⟩, RotDefi.rot 2 90]⟩, ?_, rfl, by simp [rhAngleOf]⟩
    have := loopFindP_append_single (fun t => t.name == "ToFinPos_bdy") g.tras
      ⟨Int.ofNat g.tras.length + 1, "ToFinPos_bdy", [],
        [RotDefi.transl ⟨0, 0, -10⟩, RotDefi.rot 2 90]⟩ 0 hnobeq (by simp)
    simpa using this

/-- C1 witness: the spec §8 scenario — bodies `B1`, `B2`, region `R1`
referencing both — transformed by 90° about axis 2 then `(0,0,10)` in
geometry-directive mode. -/
theorem solidTrasform_geoDirs_card_witness :
    ∃ g2, solidTrasform gB1B2R1 (some ⟨0, 0, 10⟩) (.byAngle 90 2) true false false
        "ToFinPos" none = .ok g2 ∧
      ∃ t, loopFindP (fun t => t.name == "ToFinPos_bdy") g2.tras 0
          = some (t, gB1B2R1.tras.length) ∧
        t.rotdefis = [RotDefi.transl ⟨0, 0, -10⟩, RotDefi.rot 2 90] ∧
        t.rotdefis.map rhAngleOf = [0, -90] :=
  solidTrasform_geoDirs_card gB1B2R1 (by decide) (by decide) (by decide) (by decide)
    (by decide)

/-! ## C2 -/

/-- C2: two placements of the same prototype in lattice mode, the second
offset `(5,0,0)` from the first.  With angle/axis placement data the second
clone is a single lattice stand-in region whose transform chain represents
the `(5,0,0)` delta; with matrix placement data the un-do step fetches the
*current* location instead of the first occurrence (`iEl=iLoc`,
src/geometry.py line 1472), so the chain of the second clone nets to the zero
translation — not the `(5,0,0)` delta the claim (and the angle/axis branch)
gives. -/
theorem buildGridded_matrix_delta_bug :
    (buildGriddedGeo gridLocsM ["P", "P"] [("P", protoGeo0)] [] true false).map
        (fun gs => ((gs.getD 1 emptyGeometry).regs.map Region.isLattice,
          (gs.getD 1 emptyGeometry).tras.map (fun t => netForwardTransl t.rotdefis)))
      = Except.ok ([true], [⟨0, 0, 0⟩]) ∧
    (buildGriddedGeo gridLocsA ["P", "P"] [("P", protoGeo0)] [] true false).map
        (fun gs => ((gs.getD 1 emptyGeometry).regs.map Region.isLattice,
          (gs.getD 1 emptyGeometry).tras.map (fun t => netForwardTransl t.rotdefis)))
      = Except.ok ([true], [⟨5, 0, 0⟩]) ∧
    subV (gridLocsM.getD 1 defaultLoc).point (gridLocsM.getD 0 defaultLoc).point
      = ⟨5, 0, 0⟩ ∧
    ((⟨0, 0, 0⟩ : V3) ≠ ⟨5, 0, 0⟩) := by
  refine ⟨?_, ?_, ?_, ?_⟩ <;> with_unfolding_all decide

/-! ## C8 -/

theorem dropLastMap {α β : Type} (f : α → β) (l : List α) :
    (l.map f).dropLast = l.dropLast.map f := by
  induction l with
  | nil => rfl
  | cons x xs ih =>
    cases xs with
    | nil => rfl
    | cons y ys =>
      simp only [List.map_cons, List.dropLast_cons₂]
      rw [← List.map_cons f y ys, ih]

theorem allIdMap {α : Type} (f : α → Bool) (l : List α) :
    (l.map f).all (fun b => b) = l.all f := by
  induction l with
  | nil => rfl
  | cons x xs ih => simp [List.all_cons, ih]

theorem dropLastConsNe {α : Type} (a : α) (xs : List α) (h : xs ≠ []) :
    (a :: xs).dropLast = a :: xs.dropLast := by
  cases xs with
  | nil => exact absurd rfl h
  | cons y ys => simp [List.dropLast_cons₂]

theorem dropLastAppGetLast {α : Type} (l : List α) (x : α) (h : l.getLast? = some x) :
    l.dropLast ++ [x] = l := by
  induction l using List.reverseRecOn with
  | nil => cases h
  | append_singleton ys y _ =>
    simp only [List.getLast?_append, List.getLast?_singleton, Option.or_some,
      Option.some.injEq] at h
    simp [h]

theorem mapVisDropApp (stack : List CondBlock) (t m : Bool) :
    (stack.map CondBlock.visible).dropLast ++ [t]
      = (stack.dropLast ++ [CondBlock.mk t m]).map CondBlock.visible := by
  rw [List.map_append, dropLastMap]
  rfl

theorem mapMatDropApp (stack : List CondBlock) (t m : Bool) :
    (stack.map CondBlock.matched).dropLast ++ [m]
      = (stack.dropLast ++ [CondBlock.mk t m]).map CondBlock.matched := by
  rw [List.map_append, dropLastMap]
  rfl

theorem ppStep_refines (st : PPSt) (sst : PPSpecSt) (l : String)
    (hf : st.flags = sst.flagset)
    (hr : st.lReads = true :: sst.stack.map CondBlock.visible)
    (he : st.lElse = sst.stack.map CondBlock.matched)
    (st2 : PPSt) (out : Option String) (h : ppStep st l = .ok (st2, out)) :
    ∃ sst2, ppSpecStep sst l = some (sst2, out) ∧ st2.flags = sst2.flagset ∧
      st2.lReads = true :: sst2.stack.map CondBlock.visible ∧
      st2.lElse = sst2.stack.map CondBlock.matched := by
  unfold ppStep at h
  unfold ppSpecStep
  by_cases hdef : lineStarts "#define" l = true
  · rw [if_pos hdef] at h ⊢
    match hw : pyWords l with
    | [] => rw [hw] at h; cases h
    | [_] => rw [hw] at h; cases h
    | [w, nm] =>
      rw [hw] at h
      simp only [Except.ok.injEq, Prod.mk.injEq] at h
      obtain ⟨hst, hout⟩ := h
      refine ⟨{ sst with flagset := if sst.flagset.contains nm then sst.flagset
        else sst.flagset ++ [nm] }, by rw [← hout], ?_, ?_, ?_⟩
      · rw [← hst]
        show (if st.flags.contains nm then st.flags else st.flags ++ [nm]) = _
        rw [hf]
      · rw [← hst]
        exact hr
      · rw [← hst]
        exact he
    | _ :: _ :: _ :: _ => rw [hw] at h; cases h
  · rw [if_neg hdef] at h ⊢
    by_cases hif : lineStarts "#if" l = true
    · rw [if_pos hif] at h ⊢
      match hw : pyWords l with
      | [] => rw [hw] at h; cases h
      | [_] => rw [hw] at h; cases h
      | w :: nm :: rest =>
        rw [hw] at h
        simp only [Except.ok.injEq, Prod.mk.injEq] at h
        obtain ⟨hst, hout⟩ := h
        refine ⟨{ sst with stack := sst.stack ++
          [⟨sst.flagset.contains nm, sst.flagset.contains nm⟩] },
          by rw [← hout], ?_, ?_, ?_⟩
        · rw [← hst]
          exact hf
        · rw [← hst]
          show st.lReads ++ [st.flags.contains nm] = _
          rw [hr, hf, List.map_append]
          rfl
        · rw [← hst]
          show st.lElse ++ [st.flags.contains nm] = _
          rw [he, hf, List.map_append]
          rfl
    · rw [if_neg hif] at h ⊢
      by_cases helif : lineStarts "#elif" l = true
      · rw [if_pos helif] at h ⊢
        match hw : pyWords l with
        | [] => rw [hw] at h; cases h
        | [_] => rw [hw] at h; cases h
        | w :: nm :: rest =>
          rw [hw] at h
          match hst0 : sst.stack.getLast? with
          | none =>
            have hle : st.lElse.getLast? = none := by
              rw [he, List.getLast?_map, hst0]; rfl
            rw [hle, hr] at h
            cases h
          | some blk =>
            have hle : st.lElse.getLast? = some blk.matched := by
              rw [he, List.getLast?_map, hst0]; rfl
            rw [hle, hr] at h
            simp only [Except.ok.injEq, Prod.mk.injEq] at h
            obtain ⟨hst, hout⟩ := h
            have hstk : sst.stack.map CondBlock.visible ≠ [] := by
              intro hc
              rw [List.map_eq_nil_iff] at hc
              rw [hc] at hst0
              cases hst0
            refine ⟨{ sst with stack := sst.stack.dropLast ++
                [⟨sst.flagset.contains nm, blk.matched || sst.flagset.contains nm⟩] },
              by rw [← hout], ?_, ?_, ?_⟩
            · rw [← hst]
              exact hf
            · rw [← hst]
              show (true :: sst.stack.map CondBlock.visible).dropLast ++
                  [st.flags.contains nm] = _
              rw [hf, dropLastConsNe true _ hstk, List.cons_append,
                mapVisDropApp sst.stack (sst.flagset.contains nm)
                  (blk.matched || sst.flagset.contains nm)]
            · rw [← hst]
              show st.lElse.dropLast ++ [blk.matched || st.flags.contains nm] = _
              rw [he, hf, mapMatDropApp sst.stack (sst.flagset.contains nm)
                (blk.matched || sst.flagset.contains nm)]
      · rw [if_neg helif] at h ⊢
        by_cases helse : lineStarts "#else" l = true
        · rw [if_pos helse] at h ⊢
          match hst0 : sst.stack.getLast? with
          | none =>
            have hle : st.lElse.getLast? = none := by
              rw [he, List.getLast?_map, hst0]; rfl
            rw [hle, hr] at h
            cases h
          | some blk =>
            have hle : st.lElse.getLast? = some blk.matched := by
              rw [he, List.getLast?_map, hst0]; rfl
            rw [hle, hr] at h
            simp only [Except.ok.injEq, Prod.mk.injEq] at h
            obtain ⟨hst, hout⟩ := h
            have hstk : sst.stack.map CondBlock.visible ≠ [] := by
              intro hc
              rw [List.map_eq_nil_iff] at hc
              rw [hc] at hst0
              cases hst0
            have hrest : (sst.stack.map CondBlock.matched).dropLast ++ [blk.matched]
                = sst.stack.map CondBlock.matched :=
              dropLastAppGetLast _ _ (by rw [List.getLast?_map, hst0]; rfl)
            refine ⟨{ sst with stack := sst.stack.dropLast ++
                [⟨!blk.matched, blk.matched⟩] }, by rw [← hout], ?_, ?_, ?_⟩
            · rw [← hst]
              exact hf
            · rw [← hst]
              show (true :: sst.stack.map CondBlock.visible).dropLast ++
                  [!blk.matched] = _
              rw [dropLastConsNe true _ hstk, List.cons_append,
                mapVisDropApp sst.stack (!blk.matched) blk.matched]
            · rw [← hst]
              show st.lElse = _
              rw [he, ← mapMatDropApp sst.stack (!blk.matched) blk.matched, hrest]
        · rw [if_neg helse] at h ⊢
          by_cases hend : lineStarts "#end" l = true
          · rw [if_pos hend] at h ⊢
            rcases hsk : sst.stack with _ | ⟨c, cs⟩
            · rw [hsk] at he hr
              rw [hr, he] at h
              cases h
            · rw [hsk] at he hr
              rw [hr, he] at h
              simp only [List.map_cons, Except.ok.injEq, Prod.mk.injEq] at h
              obtain ⟨hst, hout⟩ := h
              refine ⟨{ sst with stack := (c :: cs).dropLast }, by rw [← hout], ?_, ?_, ?_⟩
              · rw [← hst]
                exact hf
              · rw [← hst]
                show (true :: (c :: cs).map CondBlock.visible).dropLast = _
                rw [dropLastConsNe true _ (by simp), dropLastMap]
              · rw [← hst]
                show ((c :: cs).map CondBlock.matched).dropLast = _
                rw [dropLastMap]
          · rw [if_neg hend] at h ⊢
            simp only [Except.ok.injEq, Prod.mk.injEq] at h
            obtain ⟨hst, hout⟩ := h
            have hcond : st.lReads.all (fun b => b) = specVisibleAll sst := by
              rw [hr]
              unfold specVisibleAll
              simp [allIdMap]
            refine ⟨sst, ?_, by rw [← hst]; exact hf, by rw [← hst]; exact hr,
              by rw [← hst]; exact he⟩
            rw [← hout, hcond]

theorem ppRun_refines (lines : List String) : ∀ (st : PPSt) (sst : PPSpecSt)
    (out : List String), st.flags = sst.flagset →
    st.lReads = true :: sst.stack.map CondBlock.visible →
    st.lElse = sst.stack.map CondBlock.matched →
    ppRun st lines = .ok out → ppSpecRun sst lines = some out := by
  induction lines with
  | nil =>
    intro st sst out _ _ _ h
    simp only [ppRun, Except.ok.injEq] at h
    simp [ppSpecRun, h]
  | cons l ls ih =>
    intro st sst out hf hr he h
    unfold ppRun at h
    unfold ppSpecRun
    split at h
    · cases h
    · rename_i st2 o hstep
      split at h
      · cases h
      · rename_i rest hrest
        obtain ⟨sst2, hspec, hf2, hr2, he2⟩ :=
          ppStep_refines st sst l hf hr he st2 o hstep
        rw [hspec]
        show (match ppSpecRun sst2 ls with
          | none => none
          | some rest2 => some (consOut o rest2)) = some out
        rw [ih st2 sst2 rest hf2 hr2 he2 hrest]
        simp only [Except.ok.injEq] at h
        show some (consOut o rest) = some out
        rw [h]



/-- C8: a non-directive line survives preprocessing if and only if every
boolean entry on the conditional-visibility stack is true, with `#define`
adding to the flag set, `#if` pushing the membership test, `#elif` replacing
the top entry while tracking whether any branch matched, `#else` negating
"some branch already matched", and `#end` popping — the parser's flag/stack
loop (src/geometry.py lines 345-374) refines the spec-side stack machine
built from exactly those words. -/
theorem preprocessor_visibility (lines : List String) (out : List String)
    (h : ppRun ppInit lines = .ok out) : ppSpecRun ppSpecInit lines = some out :=
  ppRun_refines lines ppInit ppSpecInit out rfl rfl rfl h

/-- C8 witness: a define/if/elif/else/end sequence keeps exactly the lines in
visible branches, on both the parser machine and the spec machine. -/
theorem preprocessor_visibility_witness :
    ppRun ppInit ppLines0 = .ok ["L1", "L4"] ∧
      ppSpecRun ppSpecInit ppLines0 = some ["L1", "L4"] :=
  ⟨by decide, preprocessor_visibility ppLines0 ["L1", "L4"] (by decide)⟩



/-! ## C3: the merged definition's zone list -/

theorem splitOnChar_ne_nil (c : Char) (s : List Char) : splitOnChar c s ≠ [] := by
  induction s with
  | nil => simp [splitOnChar]
  | cons x xs ih =>
    simp only [splitOnChar]
    split
    · simp
    · rcases h : splitOnChar c xs with _ | ⟨y, ys⟩
      · simp
      · simp

theorem splitOnChar_not_mem (c : Char) (s : List Char) (h : c ∉ s) :
    splitOnChar c s = [s] := by
  induction s with
  | nil => rfl
  | cons x xs ih =>
    have hx : ¬(x = c) := fun he => h (he ▸ List.mem_cons_self x xs)
    have hxs : c ∉ xs := fun hm => h (List.mem_cons_of_mem x hm)
    simp only [splitOnChar, if_neg hx, ih hxs]

theorem splitOnChar_cons_sep (c : Char) (t : List Char) :
    splitOnChar c (c :: t) = [] :: splitOnChar c t := by
  simp [splitOnChar]

theorem splitOnChar_append_sep (c : Char) (a t : List Char) (h : c ∉ a) :
    splitOnChar c (a ++ c :: t) = a :: splitOnChar c t := by
  induction a with
  | nil => simpa using splitOnChar_cons_sep c t
  | cons x xs ih =>
    have hx : ¬(x = c) := fun he => h (he ▸ List.mem_cons_self x xs)
    have hxs : c ∉ xs := fun hm => h (List.mem_cons_of_mem x hm)
    simp only [List.cons_append, splitOnChar, if_neg hx, List.append_eq, ih hxs]

theorem mem_splitOnChar_subset (c : Char) (s t : List Char)
    (ht : t ∈ splitOnChar c s) : ∀ a ∈ t, a ∈ s := by
  induction s generalizing t with
  | nil =>
    simp only [splitOnChar, List.mem_singleton] at ht
    subst ht; intro a ha; cases ha
  | cons x xs ih =>
    intro a ha
    simp only [splitOnChar] at ht
    by_cases hx : x = c
    · rw [if_pos hx] at ht
      rcases List.mem_cons.mp ht with h1 | h2
      · subst h1; cases ha
      · exact List.mem_cons_of_mem x (ih t h2 a ha)
    · rw [if_neg hx] at ht
      rcases hsp : splitOnChar c xs with _ | ⟨y, ys⟩
      · exact absurd hsp (splitOnChar_ne_nil c xs)
      · rw [hsp] at ht
        rcases List.mem_cons.mp ht with h1 | h2
        · subst h1
          rcases List.mem_cons.mp ha with h3 | h4
          · exact h3 ▸ List.mem_cons_self x xs
          · exact List.mem_cons_of_mem x
              (ih y (by rw [hsp]; exact List.mem_cons_self y ys) a h4)
        · exact List.mem_cons_of_mem x
            (ih t (by rw [hsp]; exact List.mem_cons_of_mem y h2) a ha)

theorem not_mem_of_mem_splitOnChar (c : Char) (s t : List Char)
    (ht : t ∈ splitOnChar c s) : c ∉ t := by
  induction s generalizing t with
  | nil =>
    simp only [splitOnChar, List.mem_singleton] at ht
    subst ht; simp
  | cons x xs ih =>
    simp only [splitOnChar] at ht
    by_cases hx : x = c
    · rw [if_pos hx] at ht
      rcases List.mem_cons.mp ht with h1 | h2
      · subst h1; simp
      · exact ih t h2
    · rw [if_neg hx] at ht
      rcases hsp : splitOnChar c xs with _ | ⟨y, ys⟩
      · exact absurd hsp (splitOnChar_ne_nil c xs)
      · rw [hsp] at ht
        rcases List.mem_cons.mp ht with h1 | h2
        · subst h1
          intro hmem
          rcases List.mem_cons.mp hmem with h3 | h4
          · exact hx h3.symm
          · exact ih y (by rw [hsp]; exact List.mem_cons_self y ys) h4
        · exact ih t (by rw [hsp]; exact List.mem_cons_of_mem y h2)

theorem dropWhile_append_of_all {p : Char → Bool} (u v : List Char)
    (h : ∀ a ∈ u, p a = true) : (u ++ v).dropWhile p = v.dropWhile p := by
  induction u with
  | nil => rfl
  | cons x xs ih =>
    have hx : p x = true := h x (List.mem_cons_self x xs)
    simp only [List.cons_append, List.dropWhile_cons, hx, if_true]
    exact ih (fun a ha => h a (List.mem_cons_of_mem x ha))

theorem dropWhile_head_false {p : Char → Bool} (x : Char) (xs : List Char)
    (h : (x :: xs).dropWhile p = x :: xs) : p x = false := by
  by_cases hp : p x = true
  · exfalso
    rw [List.dropWhile_cons, if_pos hp] at h
    have hl := (List.dropWhile_sublist (p := p) (l := xs)).length_le
    rw [h] at hl
    simp at hl
  · simpa using hp

theorem dropWhile_cons_false {p : Char → Bool} (x : Char) (xs : List Char)
    (h : p x = false) : (x :: xs).dropWhile p = x :: xs := by
  simp [List.dropWhile_cons, h]

theorem dropWhile_idem {p : Char → Bool} (l : List Char) :
    (l.dropWhile p).dropWhile p = l.dropWhile p := by
  induction l with
  | nil => rfl
  | cons x xs ih =>
    by_cases hp : p x = true
    · simp only [List.dropWhile_cons, hp, if_true]
      exact ih
    · have hp' : p x = false := by simpa using hp
      simp [List.dropWhile_cons, hp']

theorem dropWhile_exists_prefix {p : Char → Bool} (l : List Char) :
    ∃ u, l = u ++ l.dropWhile p := by
  induction l with
  | nil => exact ⟨[], rfl⟩
  | cons x xs ih =>
    by_cases hp : p x = true
    · obtain ⟨u, hu⟩ := ih
      refine ⟨x :: u, ?_⟩
      simp only [List.dropWhile_cons, hp, if_true, List.cons_append]
      rw [← hu]
    · have hp' : p x = false := by simpa using hp
      exact ⟨[], by simp [List.dropWhile_cons, hp']⟩

theorem trimL_cons_space (rest : List Char) : trimL (' ' :: rest) = trimL rest := rfl

theorem trimL_append_self (z rest : List Char) (hz : trimL z = z) (hne : z ≠ []) :
    trimL (z ++ rest) = z ++ rest := by
  rcases z with _ | ⟨x, xs⟩
  · exact absurd rfl hne
  · have hx : isPySpace x = false := dropWhile_head_false x xs hz
    simp only [trimL, List.cons_append]
    exact dropWhile_cons_false x (xs ++ rest) hx

theorem trimR_append_self (a w : List Char) (hw : trimR w = w) (hne : w ≠ []) :
    trimR (a ++ w) = a ++ w := by
  have h1 : w.reverse.dropWhile isPySpace = w.reverse := by
    have h2 := congrArg List.reverse hw
    simpa [trimR] using h2
  rcases hrev : w.reverse with _ | ⟨y, ys⟩
  · exact absurd (by simpa using congrArg List.reverse hrev) hne
  · have hy : isPySpace y = false :=
      dropWhile_head_false y ys (by rw [← hrev]; exact h1)
    show ((a ++ w).reverse.dropWhile isPySpace).reverse = a ++ w
    rw [List.reverse_append, hrev]
    rw [show ((y :: ys) ++ a.reverse : List Char) = y :: (ys ++ a.reverse) from rfl]
    rw [dropWhile_cons_false y (ys ++ a.reverse) hy]
    rw [show (y :: (ys ++ a.reverse) : List Char) = (y :: ys) ++ a.reverse from rfl]
    rw [List.reverse_append, List.reverse_reverse, ← hrev, List.reverse_reverse]

theorem trimR_append_spaces (u v : List Char) (h : ∀ a ∈ v, isPySpace a = true) :
    trimR (u ++ v) = trimR u := by
  show ((u ++ v).reverse.dropWhile isPySpace).reverse
      = (u.reverse.dropWhile isPySpace).reverse
  rw [List.reverse_append,
    dropWhile_append_of_all v.reverse u.reverse
      (fun a ha => h a (List.mem_reverse.mp ha))]

theorem trimL_trimL (s : List Char) : trimL (trimL s) = trimL s := dropWhile_idem s

theorem trimR_trimR (s : List Char) : trimR (trimR s) = trimR s := by
  show ((((s.reverse.dropWhile isPySpace).reverse).reverse.dropWhile
      isPySpace)).reverse = trimR s
  rw [List.reverse_reverse, dropWhile_idem]
  rfl

theorem trimL_of_trimR (t : List Char) (h : trimL t = t) :
    trimL (trimR t) = trimR t := by
  obtain ⟨u, hu⟩ := dropWhile_exists_prefix (p := isPySpace) t.reverse
  have ht : t = trimR t ++ u.reverse := by
    have h2 := congrArg List.reverse hu
    rw [List.reverse_reverse, List.reverse_append] at h2
    exact h2
  rcases hcase : trimR t with _ | ⟨y, ys⟩
  · rfl
  · rw [hcase] at ht
    have ht' : t = y :: (ys ++ u.reverse) := by simpa using ht
    have hy : isPySpace y = false :=
      dropWhile_head_false y (ys ++ u.reverse) (by rw [← ht']; exact h)
    exact dropWhile_cons_false y ys hy

theorem pyStrip_trimL (s : List Char) : trimL (pyStrip s) = pyStrip s :=
  trimL_of_trimR (trimL s) (trimL_trimL s)

theorem pyStrip_trimR (s : List Char) : trimR (pyStrip s) = pyStrip s :=
  trimR_trimR (trimL s)

theorem mem_pyStrip (s : List Char) (a : Char) (ha : a ∈ pyStrip s) : a ∈ s := by
  have h1 : a ∈ trimL s := by
    obtain ⟨u, hu⟩ := dropWhile_exists_prefix (p := isPySpace) (trimL s).reverse
    have h2 : trimL s = pyStrip s ++ u.reverse := by
      have h3 := congrArg List.reverse hu
      rw [List.reverse_reverse, List.reverse_append] at h3
      exact h3
    rw [h2]
    exact List.mem_append_left _ ha
  obtain ⟨u, hu⟩ := dropWhile_exists_prefix (p := isPySpace) s
  rw [hu]
  exact List.mem_append_right _ h1

theorem pyStrip_wrap (z w spc : List Char) (hz : z ≠ []) (hw : w ≠ [])
    (hzl : trimL z = z) (hwr : trimR w = w)
    (hspc : ∀ a ∈ spc, isPySpace a = true) :
    pyStrip (' ' :: z ++ ' ' :: w ++ spc) = z ++ ' ' :: w := by
  have e1 : trimL (' ' :: z ++ ' ' :: w ++ spc) = z ++ ' ' :: w ++ spc := by
    have ha : (' ' :: z ++ ' ' :: w ++ spc : List Char)
        = ' ' :: (z ++ (' ' :: w ++ spc)) := by simp
    rw [ha, trimL_cons_space, trimL_append_self z (' ' :: w ++ spc) hzl hz]
    simp
  have e2 : trimR (z ++ ' ' :: w ++ spc) = z ++ ' ' :: w := by
    have h1 : (z ++ ' ' :: w ++ spc : List Char) = (z ++ ' ' :: w) ++ spc := by
      simp
    rw [h1, trimR_append_spaces _ spc hspc]
    have h2 : (z ++ ' ' :: w : List Char) = (z ++ [' ']) ++ w := by simp
    rw [h2, trimR_append_self (z ++ [' ']) w hwr hw, ← h2]
  show trimR (trimL (' ' :: z ++ ' ' :: w ++ spc)) = z ++ ' ' :: w
  rw [e1, e2]

theorem stripComments_clean (s : List Char) (h1 : ('\n' : Char) ∉ s)
    (h2 : startsWithChars ['*'] s = false) : stripComments s = s := by
  unfold stripComments linesOf
  rw [splitOnChar_not_mem '\n' s h1]
  simp [List.filter, h2, joinLines]

theorem digitChar10_mem (d : Nat) :
    digitChar10 d ∈ (['0', '1', '2', '3', '4', '5', '6', '7', '8', '9'] : List Char) := by
  unfold digitChar10
  split <;> decide

theorem natCharsAux_mem (fuel n : Nat) (c : Char) (hc : c ∈ natCharsAux fuel n) :
    c ∈ (['0', '1', '2', '3', '4', '5', '6', '7', '8', '9'] : List Char) := by
  induction fuel generalizing n with
  | zero =>
    simp only [natCharsAux, List.mem_singleton] at hc
    exact hc ▸ digitChar10_mem n
  | succ f ih =>
    simp only [natCharsAux] at hc
    split at hc
    · simp only [List.mem_singleton] at hc
      exact hc ▸ digitChar10_mem n
    · rcases List.mem_append.mp hc with h | h
      · exact ih (n / 10) h
      · simp only [List.mem_singleton] at h
        exact h ▸ digitChar10_mem (n % 10)

theorem mergeCommentLine_no_newline (nn sn : String) (jj ii : Nat)
    (h1 : ('\n' : Char) ∉ nn.toList) (h2 : ('\n' : Char) ∉ sn.toList) :
    ('\n' : Char) ∉ mergeCommentLine nn jj sn ii := by
  intro hmem
  unfold mergeCommentLine natChars at hmem
  simp only [List.mem_cons, List.mem_append, List.mem_singleton] at hmem
  casesm* _ ∨ _
  all_goals first
    | exact h1 (by assumption)
    | exact h2 (by assumption)
    | exact absurd (natCharsAux_mem _ _ _ (by assumption)) (by decide)
    | exact absurd (by assumption) (by decide)

theorem renderZone_no_mem (c : Char) (z w : List Char) (hc1 : c ≠ '|')
    (hc2 : c ≠ ' ') (hz : c ∉ z) (hw : c ∉ w) : c ∉ renderZone z w := by
  intro h
  unfold renderZone at h
  simp only [List.mem_cons, List.mem_append] at h
  casesm* _ ∨ _
  all_goals first
    | exact hc1 (by assumption)
    | exact hc2 (by assumption)
    | exact hz (by assumption)
    | exact hw (by assumption)

theorem chunk_no_bar (z w : List Char) (hz : ('|' : Char) ∉ z)
    (hw : ('|' : Char) ∉ w) : ('|' : Char) ∉ (' ' :: z ++ ' ' :: w : List Char) := by
  intro h
  simp only [List.mem_cons, List.mem_append] at h
  casesm* _ ∨ _
  all_goals first
    | exact hz (by assumption)
    | exact hw (by assumption)
    | exact absurd (by assumption) (by decide)

theorem chunkSp_no_bar (z w sp : List Char) (hz : ('|' : Char) ∉ z)
    (hw : ('|' : Char) ∉ w) (hsp : ('|' : Char) ∉ sp) :
    ('|' : Char) ∉ (' ' :: z ++ ' ' :: w ++ '\n' :: sp : List Char) := by
  intro h
  simp only [List.mem_cons, List.mem_append] at h
  casesm* _ ∨ _
  all_goals first
    | exact hz (by assumption)
    | exact hw (by assumption)
    | exact hsp (by assumption)
    | exact absurd (by assumption) (by decide)

theorem startsStar_renderZone (z w : List Char) :
    startsWithChars ['*'] (renderZone z w) = false := rfl

theorem startsStar_cmt (nn : String) (jj : Nat) (sn : String) (ii : Nat) :
    startsWithChars ['*'] (mergeCommentLine nn jj sn ii) = true := rfl

theorem startsStar_spLine (sp : List Char) (hsp : ∀ a ∈ sp, a = ' ')
    (z w : List Char) : startsWithChars ['*'] (sp ++ renderZone z w) = false := by
  cases sp with
  | nil => simpa using startsStar_renderZone z w
  | cons c cs =>
    have hc : c = ' ' := hsp c (List.mem_cons_self c cs)
    subst hc
    rfl

theorem append_cons_not_empty (z : List Char) (c : Char) (w : List Char) :
    (z ++ c :: w).isEmpty = false := by
  cases z <;> rfl

theorem crossZones_ne_nil (zs ws : List (List Char)) (h1 : zs ≠ [])
    (h2 : ws ≠ []) : crossZones zs ws ≠ [] := by
  rcases zs with _ | ⟨z, zs⟩
  · exact absurd rfl h1
  rcases ws with _ | ⟨w, ws⟩
  · exact absurd rfl h2
  simp [crossZones]

theorem linesOf_mergedChain (sn nn : String) (sp : List Char)
    (hn1 : ('\n' : Char) ∉ nn.toList) (hn2 : ('\n' : Char) ∉ sn.toList)
    (hsp : ∀ a ∈ sp, a = ' ') :
    ∀ (ps : List (Nat × List Char × Nat × List Char)) (a : List Char),
    ('\n' : Char) ∉ a →
    (∀ p ∈ ps, ('\n' : Char) ∉ p.2.1 ∧ ('\n' : Char) ∉ p.2.2.2) →
    splitOnChar '\n' (a ++ (ps.map (fun p =>
        '\n' :: mergeCommentLine nn p.2.2.1 sn p.1 ++
          '\n' :: sp ++ renderZone p.2.1 p.2.2.2)).flatten)
      = a :: ps.flatMap (fun p =>
          [mergeCommentLine nn p.2.2.1 sn p.1, sp ++ renderZone p.2.1 p.2.2.2]) := by
  intro ps
  induction ps with
  | nil =>
    intro a ha _
    simpa using splitOnChar_not_mem '\n' a ha
  | cons p ps ih =>
    intro a ha hps
    have hcmt := mergeCommentLine_no_newline nn sn p.2.2.1 p.1 hn1 hn2
    have hline : ('\n' : Char) ∉ sp ++ renderZone p.2.1 p.2.2.2 := by
      intro hm
      rcases List.mem_append.mp hm with h | h
      · have h2 := hsp _ h
        simp at h2
      · exact renderZone_no_mem '\n' p.2.1 p.2.2.2 (by decide) (by decide)
          (hps p (List.mem_cons_self p ps)).1
          (hps p (List.mem_cons_self p ps)).2 h
    have hassoc : a ++ ((p :: ps).map (fun q =>
          '\n' :: mergeCommentLine nn q.2.2.1 sn q.1 ++
            '\n' :: sp ++ renderZone q.2.1 q.2.2.2)).flatten
        = a ++ '\n' :: (mergeCommentLine nn p.2.2.1 sn p.1 ++
            '\n' :: ((sp ++ renderZone p.2.1 p.2.2.2) ++ (ps.map (fun q =>
              '\n' :: mergeCommentLine nn q.2.2.1 sn q.1 ++
                '\n' :: sp ++ renderZone q.2.1 q.2.2.2)).flatten)) := by
      simp [List.append_assoc]
    rw [hassoc, splitOnChar_append_sep '\n' a _ ha,
        splitOnChar_append_sep '\n' (mergeCommentLine nn p.2.2.1 sn p.1) _ hcmt,
        ih (sp ++ renderZone p.2.1 p.2.2.2) hline
          (fun q hq => hps q (List.mem_cons_of_mem p hq))]
    simp

theorem filter_mergedTail (sn nn : String) (sp : List Char)
    (hsp : ∀ a ∈ sp, a = ' ') :
    ∀ (ps : List (Nat × List Char × Nat × List Char)),
    ((ps.flatMap (fun p =>
        [mergeCommentLine nn p.2.2.1 sn p.1,
         sp ++ renderZone p.2.1 p.2.2.2])).filter
      (fun l => !(startsWithChars ['*'] l)))
    = ps.map (fun p => sp ++ renderZone p.2.1 p.2.2.2) := by
  intro ps
  induction ps with
  | nil => rfl
  | cons p ps ih =>
    rw [List.flatMap_cons, List.filter_append, ih]
    simp [List.filter_cons, startsStar_cmt, startsStar_spLine sp hsp]

theorem joinLines_cons_flat (x : List Char) (xs : List (List Char)) :
    joinLines (x :: xs) = x ++ (xs.map (fun l => '\n' :: l)).flatten := by
  induction xs generalizing x with
  | nil => simp [joinLines]
  | cons y ys ih =>
    show x ++ '\n' :: joinLines (y :: ys) = _
    rw [ih y]
    simp

theorem splitBar_chunks (sp : List Char) (hsp : ('|' : Char) ∉ sp) :
    ∀ (ps : List (Nat × List Char × Nat × List Char)) (z w : List Char),
    ('|' : Char) ∉ z → ('|' : Char) ∉ w →
    (∀ p ∈ ps, ('|' : Char) ∉ p.2.1 ∧ ('|' : Char) ∉ p.2.2.2) →
    splitOnChar '|' (' ' :: z ++ ' ' :: w ++
        (ps.map (fun p => '\n' :: sp ++ renderZone p.2.1 p.2.2.2)).flatten)
      = chunksList sp z w ps := by
  intro ps
  induction ps with
  | nil =>
    intro z w hz hw _
    have hb : (' ' :: z ++ ' ' :: w ++ (([] : List (Nat × List Char × Nat ×
        List Char)).map (fun p => '\n' :: sp ++ renderZone p.2.1 p.2.2.2)).flatten :
        List Char) = ' ' :: z ++ ' ' :: w := by simp
    rw [hb, splitOnChar_not_mem '|' _ (chunk_no_bar z w hz hw)]
    rfl
  | cons p ps ih =>
    intro z w hz hw hps
    have hassoc : (' ' :: z ++ ' ' :: w ++ ((p :: ps).map (fun q =>
          '\n' :: sp ++ renderZone q.2.1 q.2.2.2)).flatten : List Char)
        = (' ' :: z ++ ' ' :: w ++ '\n' :: sp) ++
            '|' :: (' ' :: p.2.1 ++ ' ' :: p.2.2.2 ++ (ps.map (fun q =>
              '\n' :: sp ++ renderZone q.2.1 q.2.2.2)).flatten) := by
      simp [renderZone, List.append_assoc]
    rw [hassoc,
        splitOnChar_append_sep '|' _ _
          (chunkSp_no_bar z w sp hz hw hsp),
        ih p.2.1 p.2.2.2 (hps p (List.mem_cons_self p ps)).1
          (hps p (List.mem_cons_self p ps)).2
          (fun q hq => hps q (List.mem_cons_of_mem p hq))]
    rfl

theorem pyStrip_chunksList (sp : List Char)
    (hsp : ∀ a ∈ sp, isPySpace a = true) :
    ∀ (ps : List (Nat × List Char × Nat × List Char)) (z w : List Char),
    z ≠ [] → w ≠ [] → trimL z = z → trimR w = w →
    (∀ p ∈ ps, p.2.1 ≠ [] ∧ p.2.2.2 ≠ [] ∧ trimL p.2.1 = p.2.1 ∧
      trimR p.2.2.2 = p.2.2.2) →
    (chunksList sp z w ps).map pyStrip
      = (z ++ ' ' :: w) :: ps.map (fun p => p.2.1 ++ ' ' :: p.2.2.2) := by
  intro ps
  induction ps with
  | nil =>
    intro z w hz hw hzl hwr _
    show [pyStrip (' ' :: z ++ ' ' :: w)] = [z ++ ' ' :: w]
    have hb : (' ' :: z ++ ' ' :: w : List Char)
        = ' ' :: z ++ ' ' :: w ++ ([] : List Char) := by simp
    rw [hb, pyStrip_wrap z w [] hz hw hzl hwr (by intro a ha; cases ha)]
  | cons p ps ih =>
    intro z w hz hw hzl hwr hps
    obtain ⟨h1, h2, h3, h4⟩ := hps p (List.mem_cons_self p ps)
    have hspc : ∀ a ∈ ('\n' :: sp : List Char), isPySpace a = true := by
      intro a ha
      rcases List.mem_cons.mp ha with h | h
      · subst h; rfl
      · exact hsp a h
    show pyStrip (' ' :: z ++ ' ' :: w ++ '\n' :: sp) ::
        (chunksList sp p.2.1 p.2.2.2 ps).map pyStrip = _
    rw [pyStrip_wrap z w ('\n' :: sp) hz hw hzl hwr hspc,
        ih p.2.1 p.2.2.2 h1 h2 h3 h4
          (fun q hq => hps q (List.mem_cons_of_mem p hq))]
    rfl

theorem filter_nonempty_chunks (z w : List Char)
    (ps : List (Nat × List Char × Nat × List Char)) :
    (((z ++ ' ' :: w) :: ps.map (fun p => p.2.1 ++ ' ' :: p.2.2.2)).filter
        (fun l => !l.isEmpty))
      = (z ++ ' ' :: w) :: ps.map (fun p => p.2.1 ++ ' ' :: p.2.2.2) := by
  apply List.filter_eq_self.mpr
  intro a ha
  rcases List.mem_cons.mp ha with h | h
  · subst h
    simp [append_cons_not_empty]
  · obtain ⟨p, hp, hpe⟩ := List.mem_map.mp h
    rw [← hpe]
    simp [append_cons_not_empty]

theorem mergeInner_render (ii : Nat) (z : List Char) :
    ∀ (jj : Nat) (nz : List (List Char)),
    (mergeInner ii jj z nz).map (fun p => p.2.1 ++ ' ' :: p.2.2.2)
      = ((nz.map pyStrip).filter (fun x => !x.isEmpty)).map
          (fun w => z ++ ' ' :: w) := by
  intro jj nz
  induction nz generalizing jj with
  | nil => rfl
  | cons w ws ih =>
    show ((if (pyStrip w).isEmpty then [] else [(ii, z, jj, pyStrip w)]) ++
        mergeInner ii (jj + 1) z ws).map (fun p => p.2.1 ++ ' ' :: p.2.2.2) = _
    rw [List.map_append]
    by_cases he : (pyStrip w).isEmpty = true
    · rw [if_pos he]
      simp only [List.map_nil, List.nil_append]
      rw [ih (jj + 1)]
      simp [List.filter_cons, he]
    · rw [if_neg he]
      have he' : (pyStrip w).isEmpty = false := by simpa using he
      rw [ih (jj + 1)]
      simp [List.filter_cons, he']

theorem mergePairsAux_render :
    ∀ (mz : List (List Char)) (ii : Nat) (nz : List (List Char)),
    (mergePairsAux ii mz nz).map (fun p => p.2.1 ++ ' ' :: p.2.2.2)
      = crossZones ((mz.map pyStrip).filter (fun x => !x.isEmpty))
          ((nz.map pyStrip).filter (fun x => !x.isEmpty)) := by
  intro mz
  induction mz with
  | nil => intro ii nz; rfl
  | cons z zs ih =>
    intro ii nz
    show ((if (pyStrip z).isEmpty then [] else mergeInner ii 1 (pyStrip z) nz) ++
        mergePairsAux (ii + 1) zs nz).map (fun p => p.2.1 ++ ' ' :: p.2.2.2) = _
    rw [List.map_append]
    by_cases he : (pyStrip z).isEmpty = true
    · rw [if_pos he]
      simp only [List.map_nil, List.nil_append]
      rw [ih (ii + 1) nz]
      simp [crossZones, List.filter_cons, he]
    · rw [if_neg he]
      have he' : (pyStrip z).isEmpty = false := by simpa using he
      rw [mergeInner_render ii (pyStrip z) 1 nz, ih (ii + 1) nz]
      simp [crossZones, List.filter_cons, he']

theorem mergeInner_mem (ii : Nat) (z : List Char) :
    ∀ (jj : Nat) (nz : List (List Char))
    (p : Nat × List Char × Nat × List Char), p ∈ mergeInner ii jj z nz →
    p.2.1 = z ∧
      ∃ wc ∈ nz, p.2.2.2 = pyStrip wc ∧ (pyStrip wc).isEmpty = false := by
  intro jj nz
  induction nz generalizing jj with
  | nil => intro p hp; cases hp
  | cons w ws ih =>
    intro p hp
    rw [show mergeInner ii jj z (w :: ws)
        = (if (pyStrip w).isEmpty then [] else [(ii, z, jj, pyStrip w)]) ++
          mergeInner ii (jj + 1) z ws from rfl] at hp
    rcases List.mem_append.mp hp with h | h
    · by_cases he : (pyStrip w).isEmpty = true
      · rw [if_pos he] at h
        cases h
      · rw [if_neg he] at h
        have hp' : p = (ii, z, jj, pyStrip w) := by simpa using h
        subst hp'
        exact ⟨rfl, w, List.mem_cons_self w ws, rfl, by simpa using he⟩
    · obtain ⟨h1, wc, hwc, h2, h3⟩ := ih (jj + 1) p h
      exact ⟨h1, wc, List.mem_cons_of_mem w hwc, h2, h3⟩

theorem mergePairsAux_mem :
    ∀ (mz : List (List Char)) (ii : Nat) (nz : List (List Char))
    (p : Nat × List Char × Nat × List Char), p ∈ mergePairsAux ii mz nz →
    (∃ zc ∈ mz, p.2.1 = pyStrip zc ∧ (pyStrip zc).isEmpty = false) ∧
    (∃ wc ∈ nz, p.2.2.2 = pyStrip wc ∧ (pyStrip wc).isEmpty = false) := by
  intro mz
  induction mz with
  | nil => intro ii nz p hp; cases hp
  | cons z zs ih =>
    intro ii nz p hp
    rw [show mergePairsAux ii (z :: zs) nz
        = (if (pyStrip z).isEmpty then [] else mergeInner ii 1 (pyStrip z) nz) ++
          mergePairsAux (ii + 1) zs nz from rfl] at hp
    rcases List.mem_append.mp hp with h | h
    · by_cases he : (pyStrip z).isEmpty = true
      · rw [if_pos he] at h
        cases h
      · rw [if_neg he] at h
        obtain ⟨h1, wc, hwc, h2, h3⟩ := mergeInner_mem ii (pyStrip z) 1 nz p h
        exact ⟨⟨z, List.mem_cons_self z zs, h1, by simpa using he⟩,
          wc, hwc, h2, h3⟩
    · obtain ⟨⟨zc, hzc, h1, h2⟩, wc, hwc, h3, h4⟩ := ih (ii + 1) nz p h
      exact ⟨⟨zc, List.mem_cons_of_mem z hzc, h1, h2⟩, wc, hwc, h3, h4⟩

theorem pair_payload_props (d : List Char) (hd : ('\n' : Char) ∉ d)
    (x zc : List Char) (hzc : zc ∈ splitOnChar '|' d)
    (hx : x = pyStrip zc) (hne : (pyStrip zc).isEmpty = false) :
    x ≠ [] ∧ trimL x = x ∧ trimR x = x ∧
      ('\n' : Char) ∉ x ∧ ('|' : Char) ∉ x := by
  subst hx
  refine ⟨?_, pyStrip_trimL zc, pyStrip_trimR zc, ?_, ?_⟩
  · intro h
    rw [h] at hne
    simp at hne
  · intro h
    exact hd (mem_splitOnChar_subset '|' d zc hzc '\n' (mem_pyStrip zc '\n' h))
  · intro h
    exact not_mem_of_mem_splitOnChar '|' d zc hzc (mem_pyStrip zc '|' h)

/-- C3 counterexample: the cross-product law fails on a reachable multi-line
stored definition. `Region.merge` splits the raw definition on `|` without
removing comment lines first, so a surviving zone that spans a comment line
(`"+a\n* cmt\n | +b"`, two zones `+a` and `+b`) gets the absorbed zone `+w`
appended after its trailing comment line, where the later zone extraction
discards it: the merged zone list is `["+a", "+b +w"]`, not the
cross-product `["+a +w", "+b +w"]` (src/region.py lines 117-125). -/
theorem merge_multiline_not_cross :
    zonesOf regMergeC.definition = ["+a".toList, "+b".toList] ∧
    zonesOf regMergeD.definition = ["+w".toList] ∧
    zonesOf (regMergeC.merge regMergeD).definition
        = ["+a".toList, "+b +w".toList] ∧
    crossZones (zonesOf regMergeC.definition) (zonesOf regMergeD.definition)
        = ["+a +w".toList, "+b +w".toList] ∧
    zonesOf (regMergeC.merge regMergeD).definition
        ≠ crossZones (zonesOf regMergeC.definition) (zonesOf regMergeD.definition) := by
  refine ⟨?_, ?_, ?_, ?_, ?_⟩ <;> decide

/-- C3 (amended): for pairs of regions whose stored definitions are
single-line (no embedded newline, not comment lines) with at least one
non-empty zone each, and whose names are newline-free, `Region.merge`
produces a surviving definition whose zone list is exactly the cross-product
of the two input zone lists — each merged zone being the surviving zone, a
space, and the absorbed zone — and sums the neighbour-count hints
(src/region.py lines 109-138); on multi-line or commented definitions the
cross-product clause fails, see the counterexample. -/
theorem merge_zone_cross_product (r n : Region)
    (hr1 : ('\n' : Char) ∉ r.definition) (hn1 : ('\n' : Char) ∉ n.definition)
    (hr2 : startsWithChars ['*'] r.definition = false)
    (hn2 : startsWithChars ['*'] n.definition = false)
    (hrn : ('\n' : Char) ∉ r.name.toList) (hnn : ('\n' : Char) ∉ n.name.toList)
    (hz1 : zonesOf r.definition ≠ []) (hz2 : zonesOf n.definition ≠ []) :
    zonesOf (r.merge n).definition
        = crossZones (zonesOf r.definition) (zonesOf n.definition)
      ∧ (r.merge n).neigh = r.neigh + n.neigh := by
  have hdef : (r.merge n).definition
      = mergedDefOf r.name n.name (List.replicate 16 ' ')
          (mergePairsAux 1 (splitOnChar '|' r.definition)
            (splitOnChar '|' n.definition)) := rfl
  have hneigh : (r.merge n).neigh = r.neigh + n.neigh := by
    show (r.mergeSp n (List.replicate 16 ' ')).neigh = r.neigh + n.neigh
    rcases hq : mergePairsAux 1 (splitOnChar '|' r.definition)
        (splitOnChar '|' n.definition) with _ | ⟨q, qs⟩ <;>
      simp only [Region.mergeSp, mergePairs, hq] <;> split <;> rfl
  refine ⟨?_, hneigh⟩
  have er : zonesOf r.definition
      = ((splitOnChar '|' r.definition).map pyStrip).filter
          (fun x => !x.isEmpty) := by
    unfold zonesOf
    rw [stripComments_clean r.definition hr1 hr2]
  have en : zonesOf n.definition
      = ((splitOnChar '|' n.definition).map pyStrip).filter
          (fun x => !x.isEmpty) := by
    unfold zonesOf
    rw [stripComments_clean n.definition hn1 hn2]
  have hrender := mergePairsAux_render (splitOnChar '|' r.definition) 1
    (splitOnChar '|' n.definition)
  rcases hp : mergePairsAux 1 (splitOnChar '|' r.definition)
      (splitOnChar '|' n.definition) with _ | ⟨p0, rest⟩
  · exfalso
    rw [hp] at hrender
    simp only [List.map_nil] at hrender
    exact crossZones_ne_nil _ _
      (by rw [← er]; exact hz1) (by rw [← en]; exact hz2) hrender.symm
  · obtain ⟨i0, z0, j0, w0⟩ := p0
    rw [hp] at hrender
    have hmemAll : ∀ p ∈ ((i0, z0, j0, w0) :: rest :
        List (Nat × List Char × Nat × List Char)),
        (p.2.1 ≠ [] ∧ trimL p.2.1 = p.2.1 ∧ trimR p.2.1 = p.2.1 ∧
          ('\n' : Char) ∉ p.2.1 ∧ ('|' : Char) ∉ p.2.1) ∧
        (p.2.2.2 ≠ [] ∧ trimL p.2.2.2 = p.2.2.2 ∧ trimR p.2.2.2 = p.2.2.2 ∧
          ('\n' : Char) ∉ p.2.2.2 ∧ ('|' : Char) ∉ p.2.2.2) := by
      intro p hpm
      obtain ⟨⟨zc, hzc, hzc2, hzc3⟩, wc, hwc, hwc2, hwc3⟩ :=
        mergePairsAux_mem (splitOnChar '|' r.definition) 1
          (splitOnChar '|' n.definition) p (by rw [hp]; exact hpm)
      exact ⟨pair_payload_props r.definition hr1 p.2.1 zc hzc hzc2 hzc3,
        pair_payload_props n.definition hn1 p.2.2.2 wc hwc hwc2 hwc3⟩
    obtain ⟨⟨hz0ne, hz0L, hz0R, hz0n, hz0b⟩, hw0ne, hw0L, hw0R, hw0n, hw0b⟩ :=
      hmemAll (i0, z0, j0, w0) (List.mem_cons_self _ _)
    have hsp16 : ∀ a ∈ (List.replicate 16 ' ' : List Char), a = ' ' :=
      fun a ha => List.eq_of_mem_replicate ha
    have hsp16s : ∀ a ∈ (List.replicate 16 ' ' : List Char),
        isPySpace a = true := by
      intro a ha
      rw [List.eq_of_mem_replicate ha]
      rfl
    have hbar16 : ('|' : Char) ∉ (List.replicate 16 ' ' : List Char) :=
      fun h => absurd (List.eq_of_mem_replicate h) (by decide)
    have e1 : linesOf (mergedDefOf r.name n.name (List.replicate 16 ' ')
          ((i0, z0, j0, w0) :: rest))
        = renderZone z0 w0 :: rest.flatMap (fun p =>
            [mergeCommentLine n.name p.2.2.1 r.name p.1,
             List.replicate 16 ' ' ++ renderZone p.2.1 p.2.2.2]) := by
      exact linesOf_mergedChain r.name n.name (List.replicate 16 ' ')
        hnn hrn hsp16 rest (renderZone z0 w0)
        (renderZone_no_mem '\n' z0 w0 (by decide) (by decide) hz0n hw0n)
        (fun q hq => ⟨((hmemAll q (List.mem_cons_of_mem _ hq)).1).2.2.2.1,
          ((hmemAll q (List.mem_cons_of_mem _ hq)).2).2.2.2.1⟩)
    have e2 : (linesOf (mergedDefOf r.name n.name (List.replicate 16 ' ')
          ((i0, z0, j0, w0) :: rest))).filter
            (fun l => !(startsWithChars ['*'] l))
        = renderZone z0 w0 :: rest.map (fun p =>
            List.replicate 16 ' ' ++ renderZone p.2.1 p.2.2.2) := by
      rw [e1, List.filter_cons_of_pos (by simp [startsStar_renderZone]),
          filter_mergedTail r.name n.name (List.replicate 16 ' ') hsp16 rest]
    have e3 : stripComments (mergedDefOf r.name n.name (List.replicate 16 ' ')
          ((i0, z0, j0, w0) :: rest))
        = '|' :: (' ' :: z0 ++ ' ' :: w0 ++ (rest.map (fun p =>
            '\n' :: List.replicate 16 ' ' ++ renderZone p.2.1 p.2.2.2)).flatten) := by
      unfold stripComments
      rw [e2, joinLines_cons_flat]
      simp [renderZone, List.map_map, Function.comp_def, List.append_assoc]
    have e4 : zonesOf (mergedDefOf r.name n.name (List.replicate 16 ' ')
          ((i0, z0, j0, w0) :: rest))
        = (z0 ++ ' ' :: w0) :: rest.map (fun p => p.2.1 ++ ' ' :: p.2.2.2) := by
      unfold zonesOf
      rw [e3, splitOnChar_cons_sep,
          splitBar_chunks (List.replicate 16 ' ') hbar16 rest z0 w0 hz0b hw0b
            (fun q hq => ⟨((hmemAll q (List.mem_cons_of_mem _ hq)).1).2.2.2.2,
              ((hmemAll q (List.mem_cons_of_mem _ hq)).2).2.2.2.2⟩),
          List.map_cons,
          pyStrip_chunksList (List.replicate 16 ' ') hsp16s rest z0 w0
            hz0ne hw0ne hz0L hw0R
            (fun q hq => ⟨((hmemAll q (List.mem_cons_of_mem _ hq)).1).1,
              ((hmemAll q (List.mem_cons_of_mem _ hq)).2).1,
              ((hmemAll q (List.mem_cons_of_mem _ hq)).1).2.1,
              ((hmemAll q (List.mem_cons_of_mem _ hq)).2).2.2.1⟩),
          List.filter_cons_of_neg (by decide)]
      exact filter_nonempty_chunks z0 w0 rest
    rw [hdef, hp, er, en, ← hrender, e4]
    rfl

/-- C3 witness: merging a region with zones `+b1 -b2 | +b3` (neigh 5) into
one with zones `+c1 | +c2` (neigh 7) yields the four cross-product zones and
neighbour hint 12. -/
theorem merge_zone_cross_product_witness :
    zonesOf (regMergeA.merge regMergeB).definition
        = crossZones (zonesOf regMergeA.definition) (zonesOf regMergeB.definition)
      ∧ (regMergeA.merge regMergeB).neigh = regMergeA.neigh + regMergeB.neigh :=
  merge_zone_cross_product regMergeA regMergeB (by decide) (by decide)
    (by decide) (by decide) (by decide) (by decide) (by decide) (by decide)

end PyFluka
